import Mathlib

/-!
Backward register tracking of the shader IR (`video_core/shader/track.cpp`)

A shallow embedding of `FindOperation`, `ShaderIR::TrackRegister`,
`ShaderIR::TrackImmediate` and `ShaderIR::TrackCbuf`, followed by the properties
proved about them.

Conventions of the embedding:

* a `Node` of the program is a non-null pointer to a `NodeData` variant; it is an
  inductive value here.  A null `Node` result ("not found") is `none`;
* `s64` cursors are `Int`: the only arithmetic on a cursor is `cursor - 1` and
  `size() - 1`, which stay in the range of `s64` for every cursor but its least value
  (for an empty vector `static_cast<s64>(size() - 1)` is `-1`, as in `Int`);
* register indices and literal values are `Nat`, they are only compared and copied;
* a C++ exception (`std::vector::at`, `std::get`) or a failed `ASSERT` is an
  `Except.error`;
* `TrackCbuf` is not structurally terminating in the source, it carries a fuel
  argument and answers `none` when the fuel is used up.
-/

namespace VideoCommon.Shader

/-- Modelled from the spec: the opcode tag of an `Operation` (the enumeration
`OperationCode` of `shader_ir.h` is not part of the sources at hand).  `Assign` is
the distinguished opcode, every other opcode is `Other tag`. -/
inductive OperationCode where
  | Assign
  | Other (tag : Nat)
  deriving DecidableEq, Repr

/-- Modelled from the spec: the variants of `NodeData` (`shader_ir.h` is not part of
the sources at hand).  `Operation`, `Conditional`, `Gpr`, `Immediate` and `Cbuf` are
the variants `track.cpp` inspects; `Inert` stands for every other variant
(predicates, internal flags, ...), which no search matches. -/
inductive Node where
  | Operation (code : OperationCode) (operands : List Node)
  | Conditional (condition : Node) (code : List Node)
  | Gpr (index : Nat)
  | Immediate (value : Nat)
  | Cbuf (index : Nat) (offset : Node)
  | Inert (kind : Nat)

/-- The ordered statements of one lexical scope (`NodeBlock`, a vector of nodes). -/
abbrev NodeBlock := List Node

/-- The ways a call can end other than by returning. -/
inductive Fault where
  /-- The exception `std::out_of_range` of `code.at(cursor)` or `(*operation)[i]`. -/
  | outOfRange
  /-- The exception `std::bad_variant_access` of `std::get<GprNode>`. -/
  | badVariantAccess
  /-- The failure of an `ASSERT`. -/
  | assertFailed
  deriving DecidableEq, Repr

/-- Statement search.  `for (; cursor >= 0; --cursor)` over `code.at(cursor)`: an
`Operation` with the requested opcode is returned with its position, a
`Conditional` is searched from the last index of its nested block and a match is
returned with the position of the conditional; `return {}` is `(none, 0)`. -/
def FindOperation (code : NodeBlock) (cursor : Int) (operation_code : OperationCode) :
    Except Fault (Option Node × Int) :=
  if 0 ≤ cursor then
    match hnode : code[cursor.toNat]? with
    | none => .error .outOfRange
    | some (.Operation c operands) =>
      if c = operation_code then .ok (some (.Operation c operands), cursor)
      else FindOperation code (cursor - 1) operation_code
    | some (.Conditional _ conditional_code) =>
      match FindOperation conditional_code ((conditional_code.length : Int) - 1)
          operation_code with
      | .error e => .error e
      | .ok (some found, _) => .ok (some found, cursor)
      | .ok (none, _) => FindOperation code (cursor - 1) operation_code
    | some _ => FindOperation code (cursor - 1) operation_code
  else .ok (none, 0)
termination_by (sizeOf code, (cursor + 1).toNat)
decreasing_by
  all_goals simp_wf
  all_goals first
    | (apply Prod.Lex.right; omega)
    | (apply Prod.Lex.left
       have hlt := List.sizeOf_lt_of_mem (List.getElem?_mem hnode)
       simp at hlt
       omega)

/-- Register tracker.  `for (; cursor >= 0; --cursor)`: search the most recent
`Assign` from `cursor`; when its operand 0 is a register with the index of `tracked`
return operand 1 and the position found, otherwise go on from `cursor - 1`.
`tracked` is the index held by the `GprNode` the source receives.  Reading an operand
the operation does not have, `(*operation)[i]`, is the fatal invariant failure of the
specification (the accessor is declared in `shader_ir.h`), an exception here. -/
def TrackRegister (tracked : Nat) (code : NodeBlock) (cursor : Int) :
    Except Fault (Option Node × Int) :=
  if 0 ≤ cursor then
    match FindOperation code cursor .Assign with
    | .error e => .error e
    | .ok (none, _) => .ok (none, 0)
    | .ok (some (.Operation _ operands), new_cursor) =>
      match (operands[0]? : Option Node) with
      | none => .error .outOfRange
      | some (.Gpr index) =>
        if index = tracked then
          match (operands[1]? : Option Node) with
          | none => .error .outOfRange
          | some source => .ok (some source, new_cursor)
        else TrackRegister tracked code (cursor - 1)
      | some _ => TrackRegister tracked code (cursor - 1)
    | .ok (some _, _) => .error .assertFailed
  else .ok (none, 0)
termination_by (cursor + 1).toNat
decreasing_by all_goals (simp_wf; omega)

/-- Immediate tracker.  `std::get<GprNode>(*tracked)` throws on any other variant;
the register is tracked from `cursor - 1` and only an `Immediate` source yields a
value. -/
def TrackImmediate (tracked : Node) (code : NodeBlock) (cursor : Int) :
    Except Fault (Option Nat) :=
  match tracked with
  | .Gpr index =>
    match TrackRegister index code (cursor - 1) with
    | .error e => .error e
    | .ok (none, _) => .ok none
    | .ok (some (.Immediate value), _) => .ok (some value)
    | .ok (some _, _) => .ok none
  | _ => .error .badVariantAccess

/-- The loop `for (i = 0; i < GetOperandsCount(); ++i)` of `TrackCbuf`: `track` is the
recursive call on one operand; the first operand whose tracking returns a node ends
the loop, an exception or a call that does not return ends it as well. -/
def TrackCbufOperands (track : Node → Option (Except Fault (Option Node))) :
    List Node → Option (Except Fault (Option Node))
  | [] => some (.ok none)
  | operand :: rest =>
    match track operand with
    | none => none
    | some (.error e) => some (.error e)
    | some (.ok (some found)) => some (.ok (some found))
    | some (.ok none) => TrackCbufOperands track rest

/-- Constant buffer tracker, with `zero_index` for `Register::ZeroIndex` (a constant
of a header that is not part of the sources at hand).  The result is `none` when
`fuel` nested calls were not enough for the call to return. -/
def TrackCbuf (zero_index : Nat) :
    Nat → Node → NodeBlock → Int → Option (Except Fault (Option Node))
  | 0, _, _, _ => none
  | fuel + 1, tracked, code, cursor =>
    match tracked with
    | .Cbuf _ offset =>
      match offset with
      | .Immediate _ => some (.ok (some tracked))
      | _ => some (.ok none)
    | .Gpr index =>
      if index = zero_index then some (.ok none)
      else
        match TrackRegister index code (cursor - 1) with
        | .error e => some (.error e)
        | .ok (none, _) => some (.ok none)
        | .ok (some source, new_cursor) => TrackCbuf zero_index fuel source code new_cursor
    | .Operation _ operands =>
      TrackCbufOperands (fun operand => TrackCbuf zero_index fuel operand code cursor) operands
    | .Conditional _ conditional_code =>
      TrackCbuf zero_index fuel tracked conditional_code (conditional_code.length : Int)
    | _ => some (.ok none)

/-- Statement `i` of `block` is an `Assign` operation whose operand 0 is the register
reference with index `r`. -/
def AssignsRegisterAt (r : Nat) (block : NodeBlock) (i : Nat) : Prop :=
  ∃ operands, block[i]? = some (.Operation .Assign operands) ∧ operands[0]? = some (.Gpr r)

/-- Node `e` is operand 1 of the operation at index `i` of `block`. -/
def OperandOneAt (block : NodeBlock) (i : Nat) (e : Node) : Prop :=
  ∃ code operands, block[i]? = some (.Operation code operands) ∧ operands[1]? = some e

/-- Index `i` is the greatest index `≤ c` at which `block` assigns register `r`. -/
def MostRecentAssignAt (r : Nat) (block : NodeBlock) (c i : Nat) : Prop :=
  i ≤ c ∧ AssignsRegisterAt r block i ∧ ∀ j, i < j → j ≤ c → ¬ AssignsRegisterAt r block j
/-- The block `[Assign(r0, Immediate(1)), Assign(r0, Immediate(2))]` of the
most-recent-definition scenario. -/
def tieBreakBlock : NodeBlock :=
  [.Operation .Assign [.Gpr 0, .Immediate 1], .Operation .Assign [.Gpr 0, .Immediate 2]]

mutual
/-- The last `Operation` with opcode `opc` in program order inside one statement, the
bodies of conditionals included at every depth. -/
def Node.lastOperation (opc : OperationCode) : Node → Option Node
  | .Operation c operands => if c = opc then some (.Operation c operands) else none
  | .Conditional _ conditional_code => lastOperationIn opc conditional_code
  | _ => none
/-- The last `Operation` with opcode `opc` in program order inside a block: a later
statement comes before an earlier one. -/
def lastOperationIn (opc : OperationCode) : List Node → Option Node
  | [] => none
  | node :: rest =>
    match lastOperationIn opc rest with
    | some found => some found
    | none => node.lastOperation opc
end

/-- The conditional body `[Assign(r0, Immediate(7)), Assign(r1, Immediate(8))]`: its
most recent assignment of `r0` is followed by an assignment of another register. -/
def shadowedBody : NodeBlock :=
  [.Operation .Assign [.Gpr 0, .Immediate 7], .Operation .Assign [.Gpr 1, .Immediate 8]]

/-- The call `TrackCbuf(tracked, code, cursor)` ends with `result`, a returned node or
"not found" (`.ok`) or an exception (`.error`): some amount of fuel is enough. -/
def TrackCbufYields (zero_index : Nat) (tracked : Node) (code : NodeBlock) (cursor : Int)
    (result : Except Fault (Option Node)) : Prop :=
  ∃ fuel, TrackCbuf zero_index fuel tracked code cursor = some result

/-- The test `std::holds_alternative<ImmediateNode>` on a node. -/
def Node.isImmediate : Node → Bool
  | .Immediate _ => true
  | _ => false

/-- The block `[Assign(r3, Cbuf(0, Immediate(4))), Assign(r4, r3), use]` of the
end-to-end scenario, `use` being the statement that reads `r4`. -/
def chainBlock (use : Node) : NodeBlock :=
  [.Operation .Assign [.Gpr 3, .Cbuf 0 (.Immediate 4)], .Operation .Assign [.Gpr 4, .Gpr 3], use]

/-- The operation `Add(r1, Cbuf(2, Immediate(16)))`: its first operand is a register,
its second operand a constant buffer reference with an immediate offset. -/
def registerThenCbuf : Node :=
  .Operation (.Other 0) [.Gpr 1, .Cbuf 2 (.Immediate 16)]

/-- The block `[Assign(r1, Immediate(3)), Assign(r0, r1)]`: `r0` is defined by a
register that is itself defined by a literal. -/
def twoLevelBlock : NodeBlock :=
  [.Operation .Assign [.Gpr 1, .Immediate 3], .Operation .Assign [.Gpr 0, .Gpr 1]]

/-- Statement `n` lies in `block`: it is one of its statements or it lies in the body
of one of its conditionals, at any nesting depth. -/
inductive OccursIn : Node → NodeBlock → Prop
  | here {n : Node} {block : NodeBlock} : n ∈ block → OccursIn n block
  | nested {n condition : Node} {conditional_code block : NodeBlock} :
      Node.Conditional condition conditional_code ∈ block → OccursIn n conditional_code →
      OccursIn n block

/-- The block `[Assign(r0, Add(r0, Immediate(5)))]` of the self-assignment scenario. -/
def selfAssignBlock : NodeBlock :=
  [.Operation .Assign [.Gpr 0, .Operation (.Other 0) [.Gpr 0, .Immediate 5]]]

/-- The invariant of section 3 of the specification on the `Assign` operations of a
block: each of them, at any nesting depth, has its operand 0, the assignment target. -/
def AssignsHaveTarget (block : NodeBlock) : Prop :=
  ∀ operands, OccursIn (.Operation .Assign operands) block → ∃ target, operands[0]? = some target

/-- Statement `s` holds an operation with opcode `opc`: it is an `Operation` with that
opcode, or a `Conditional` whose nested block contains one at some nesting depth. -/
def ContainsOperation (opc : OperationCode) (s : Node) : Prop :=
  (∃ operands, s = .Operation opc operands) ∨
  (∃ condition conditional_code operands, s = .Conditional condition conditional_code ∧
    OccursIn (.Operation opc operands) conditional_code)

/-- The block `[Assign(r0, Immediate(1)), Conditional(cond, [Assign(r1, Immediate(8))]),
Inert]`: the most recent assignment before the last statement lies in a conditional. -/
def nestedBlock : NodeBlock :=
  [.Operation .Assign [.Gpr 0, .Immediate 1],
    .Conditional (.Inert 0) [.Operation .Assign [.Gpr 1, .Immediate 8]],
    .Inert 1]

/-- The register tracker as the specification words it (section 4.2), in `fuel` rounds:
call Statement Search for `Assign` from `cursor`; report "not found" when it does;
return operand 1 and the position when the target of the assignment found is the
tracked register; otherwise re-start from the returned position minus one.  The result
is `none` when the rounds are used up. -/
def TrackRegisterSpecRounds (tracked : Nat) (code : NodeBlock) :
    Nat → Int → Option (Except Fault (Option Node × Int))
  | 0, _ => none
  | fuel + 1, cursor =>
    match FindOperation code cursor .Assign with
    | .error e => some (.error e)
    | .ok (none, _) => some (.ok (none, 0))
    | .ok (some (.Operation _ operands), position) =>
      match (operands[0]? : Option Node) with
      | none => some (.error .outOfRange)
      | some (.Gpr index) =>
        if index = tracked then
          match (operands[1]? : Option Node) with
          | none => some (.error .outOfRange)
          | some source => some (.ok (some source, position))
        else TrackRegisterSpecRounds tracked code fuel (position - 1)
      | some _ => TrackRegisterSpecRounds tracked code fuel (position - 1)
    | .ok (some _, _) => some (.error .assertFailed)

/-- The register tracker of the specification: every re-start is strictly below the
previous cursor, so one round per index up to the cursor and a last one are enough. -/
def TrackRegisterSpec (tracked : Nat) (code : NodeBlock) (cursor : Int) :
    Option (Except Fault (Option Node × Int)) :=
  TrackRegisterSpecRounds tracked code ((cursor + 1).toNat + 1) cursor

mutual
/-- No `Conditional` node occurs as the node or as an operand of it, at any depth of
operands (the offset of a constant buffer reference is not an operand: `TrackCbuf`
never descends into it). -/
def Node.conditionalFree : Node → Bool
  | .Operation _ operands => conditionalFreeList operands
  | .Conditional _ _ => false
  | _ => true
/-- Every node of a list of operands is free of `Conditional` nodes. -/
def conditionalFreeList : List Node → Bool
  | [] => true
  | operand :: rest => operand.conditionalFree && conditionalFreeList rest
end

/-! Section: Unfolding of the two loops -/

theorem FindOperation_neg (code : NodeBlock) (cursor : Int) (opc : OperationCode)
    (h : cursor < 0) : FindOperation code cursor opc = .ok (none, 0) := by
  rw [FindOperation, if_neg (by omega)]

theorem FindOperation_nonneg (code : NodeBlock) (cursor : Int) (opc : OperationCode)
    (h0 : 0 ≤ cursor) :
    FindOperation code cursor opc =
      match code[cursor.toNat]? with
      | none => .error .outOfRange
      | some (.Operation c operands) =>
        if c = opc then .ok (some (.Operation c operands), cursor)
        else FindOperation code (cursor - 1) opc
      | some (.Conditional _ conditional_code) =>
        match FindOperation conditional_code ((conditional_code.length : Int) - 1) opc with
        | .error e => .error e
        | .ok (some found, _) => .ok (some found, cursor)
        | .ok (none, _) => FindOperation code (cursor - 1) opc
      | some _ => FindOperation code (cursor - 1) opc := by
  rw [FindOperation, if_pos h0]
  split <;> rename_i heq <;> simp only [heq]

theorem FindOperation_operation (code : NodeBlock) (cursor : Int) (opc : OperationCode)
    (c : OperationCode) (operands : List Node)
    (h0 : 0 ≤ cursor) (h : code[cursor.toNat]? = some (.Operation c operands)) :
    FindOperation code cursor opc =
      if c = opc then .ok (some (.Operation c operands), cursor)
      else FindOperation code (cursor - 1) opc := by
  rw [FindOperation_nonneg code cursor opc h0, h]

theorem FindOperation_conditional (code : NodeBlock) (cursor : Int) (opc : OperationCode)
    (condition : Node) (conditional_code : NodeBlock)
    (h0 : 0 ≤ cursor)
    (h : code[cursor.toNat]? = some (.Conditional condition conditional_code)) :
    FindOperation code cursor opc =
      match FindOperation conditional_code ((conditional_code.length : Int) - 1) opc with
      | .error e => .error e
      | .ok (some found, _) => .ok (some found, cursor)
      | .ok (none, _) => FindOperation code (cursor - 1) opc := by
  rw [FindOperation_nonneg code cursor opc h0, h]

theorem FindOperation_other (code : NodeBlock) (cursor : Int) (opc : OperationCode)
    (node : Node) (h0 : 0 ≤ cursor) (h : code[cursor.toNat]? = some node)
    (hop : ∀ c operands, node ≠ .Operation c operands)
    (hcond : ∀ condition conditional_code, node ≠ .Conditional condition conditional_code) :
    FindOperation code cursor opc = FindOperation code (cursor - 1) opc := by
  rw [FindOperation_nonneg code cursor opc h0, h]
  split
  · simp_all
  · rename_i heq; exact absurd (Option.some.inj heq) (hop _ _)
  · rename_i heq; exact absurd (Option.some.inj heq) (hcond _ _)
  · rfl

theorem TrackRegister_neg (tracked : Nat) (code : NodeBlock) (cursor : Int)
    (h : cursor < 0) : TrackRegister tracked code cursor = .ok (none, 0) := by
  rw [TrackRegister, if_neg (by omega)]

theorem TrackRegister_nonneg (tracked : Nat) (code : NodeBlock) (cursor : Int)
    (h : 0 ≤ cursor) :
    TrackRegister tracked code cursor =
      match FindOperation code cursor .Assign with
      | .error e => .error e
      | .ok (none, _) => .ok (none, 0)
      | .ok (some (.Operation _ operands), new_cursor) =>
        match (operands[0]? : Option Node) with
        | none => .error .outOfRange
        | some (.Gpr index) =>
          if index = tracked then
            match (operands[1]? : Option Node) with
            | none => .error .outOfRange
            | some source => .ok (some source, new_cursor)
          else TrackRegister tracked code (cursor - 1)
        | some _ => TrackRegister tracked code (cursor - 1)
      | .ok (some _, _) => .error .assertFailed := by
  rw [TrackRegister, if_pos h]

/-- When the search from `cursor` and the search from `cursor - 1` agree, so do the
register trackers: the loop of `TrackRegister` looks at the same assignment again. -/
theorem TrackRegister_pred_of_find_eq (tracked : Nat) (code : NodeBlock) (cursor : Int)
    (h0 : 0 ≤ cursor)
    (h : FindOperation code cursor .Assign = FindOperation code (cursor - 1) .Assign) :
    TrackRegister tracked code cursor = TrackRegister tracked code (cursor - 1) := by
  rw [TrackRegister_nonneg tracked code cursor h0, h]
  by_cases h1 : 0 ≤ cursor - 1
  · have e := TrackRegister_nonneg tracked code (cursor - 1) h1
    split
    · rename_i heq; rw [e, heq]
    · rename_i heq; rw [e, heq]
    · rename_i heq
      split
      · rename_i h0; rw [e, heq]; simp only [h0]
      · rename_i h0
        split
        · rename_i hidx
          split
          · rename_i h1; rw [e, heq]; simp only [h0, h1, hidx, if_true]
          · rename_i h1; rw [e, heq]; simp only [h0, h1, hidx, if_true]
        · rfl
      · rfl
    · rename_i hop heq; rw [e, heq]
      split <;> simp_all
  · rw [FindOperation_neg code (cursor - 1) _ (by omega),
      TrackRegister_neg tracked code (cursor - 1) (by omega)]

/-! Section: Register tracking on blocks without conditionals -/

/-- The state of the backward scan of a flat block once the statements `i < n` are
left: the tracker run from `n - 1` answers with the greatest assignment of `r` among
them, or with "not found" when there is none. -/
theorem TrackRegister_flat_scan (block : NodeBlock) (r : Nat)
    (hflat : ∀ condition conditional_code, Node.Conditional condition conditional_code ∉ block)
    (hwf : ∀ operands, Node.Operation .Assign operands ∈ block → 2 ≤ operands.length)
    (n : Nat) (hn : n ≤ block.length) :
    (TrackRegister r block ((n : Int) - 1) = .ok (none, 0) ∧
        ∀ i, i < n → ¬ AssignsRegisterAt r block i) ∨
    (∃ k e, k < n ∧ AssignsRegisterAt r block k ∧ OperandOneAt block k e ∧
        (∀ j, k < j → j < n → ¬ AssignsRegisterAt r block j) ∧
        TrackRegister r block ((n : Int) - 1) = .ok (some e, (k : Int))) := by
  induction n with
  | zero =>
    left
    exact ⟨TrackRegister_neg r block _ (by simp), fun i hi => absurd hi (Nat.not_lt_zero i)⟩
  | succ n ih =>
    have ih := ih (by omega)
    have hcur : (((n + 1 : Nat) : Int) - 1) = (n : Int) := by push_cast; ring
    rw [hcur]
    have h0 : (0 : Int) ≤ (n : Int) := Int.natCast_nonneg n
    obtain ⟨node, hnode⟩ : ∃ node, block[n]? = some node :=
      ⟨block[n], List.getElem?_eq_getElem (by omega)⟩
    have hnode' : block[(n : Int).toNat]? = some node := by simpa using hnode
    -- the step shared by every statement that does not assign `r`
    have skip : ¬ AssignsRegisterAt r block n →
        TrackRegister r block (n : Int) = TrackRegister r block ((n : Int) - 1) →
        (TrackRegister r block (n : Int) = .ok (none, 0) ∧
            ∀ i, i < n + 1 → ¬ AssignsRegisterAt r block i) ∨
        (∃ k e, k < n + 1 ∧ AssignsRegisterAt r block k ∧ OperandOneAt block k e ∧
            (∀ j, k < j → j < n + 1 → ¬ AssignsRegisterAt r block j) ∧
            TrackRegister r block (n : Int) = .ok (some e, (k : Int))) := by
      intro hna heq
      rw [heq]
      rcases ih with ⟨hres, hnone⟩ | ⟨k, e, hk, hA, hO, hgreat, hres⟩
      · left
        refine ⟨hres, fun i hi => ?_⟩
        rcases Nat.lt_succ_iff_lt_or_eq.mp hi with h | h
        · exact hnone i h
        · exact h ▸ hna
      · right
        refine ⟨k, e, by omega, hA, hO, fun j hkj hj => ?_, hres⟩
        rcases Nat.lt_succ_iff_lt_or_eq.mp hj with h | h
        · exact hgreat j hkj h
        · exact h ▸ hna
    cases node with
    | Conditional condition conditional_code =>
      exact absurd (List.getElem?_mem hnode) (hflat condition conditional_code)
    | Operation c operands =>
      cases c with
      | Other tag =>
        apply skip
        · rintro ⟨ops, hops, -⟩
          rw [hnode] at hops
          cases hops
        · apply TrackRegister_pred_of_find_eq r block _ h0
          rw [FindOperation_operation block _ _ _ _ h0 hnode', if_neg (by simp)]
      | Assign =>
        have hfind : FindOperation block (n : Int) .Assign =
            .ok (some (.Operation .Assign operands), (n : Int)) := by
          rw [FindOperation_operation block _ _ _ _ h0 hnode', if_pos rfl]
        have hlen := hwf operands (List.getElem?_mem hnode)
        obtain ⟨target, source, rest, rfl⟩ : ∃ t s rest, operands = t :: s :: rest := by
          match operands, hlen with
          | t :: s :: rest, _ => exact ⟨t, s, rest, rfl⟩
        have hstep := TrackRegister_nonneg r block (n : Int) h0
        rw [hfind] at hstep
        simp only [List.getElem?_cons_zero, List.getElem?_cons_succ] at hstep
        by_cases htarget : target = .Gpr r
        · subst htarget
          simp only [if_true] at hstep
          right
          refine ⟨n, source, by omega, ⟨_, hnode, rfl⟩, ⟨_, _, hnode, by simp⟩, ?_, hstep⟩
          intro j hj1 hj2
          omega
        · apply skip
          · rintro ⟨ops, hops, h0ops⟩
            rw [hnode] at hops
            cases hops
            simp only [List.getElem?_cons_zero, Option.some.injEq] at h0ops
            exact htarget h0ops
          · rw [hstep]
            split
            · rename_i heq; cases heq
            · rename_i index heq
              cases heq
              rw [if_neg (fun h => htarget (by rw [h]))]
            · rfl
    | Gpr index =>
      apply skip
      · rintro ⟨ops, hops, -⟩
        rw [hnode] at hops
        cases hops
      · exact TrackRegister_pred_of_find_eq r block _ h0
          (FindOperation_other block _ _ _ h0 hnode' (by simp) (by simp))
    | Immediate value =>
      apply skip
      · rintro ⟨ops, hops, -⟩
        rw [hnode] at hops
        cases hops
      · exact TrackRegister_pred_of_find_eq r block _ h0
          (FindOperation_other block _ _ _ h0 hnode' (by simp) (by simp))
    | Cbuf index offset =>
      apply skip
      · rintro ⟨ops, hops, -⟩
        rw [hnode] at hops
        cases hops
      · exact TrackRegister_pred_of_find_eq r block _ h0
          (FindOperation_other block _ _ _ h0 hnode' (by simp) (by simp))
    | Inert kind =>
      apply skip
      · rintro ⟨ops, hops, -⟩
        rw [hnode] at hops
        cases hops
      · exact TrackRegister_pred_of_find_eq r block _ h0
          (FindOperation_other block _ _ _ h0 hnode' (by simp) (by simp))

/-! Section: C1 -/

/-- C1: on a block without `Conditional` statements whose `Assign` operations have at
least two operands, `TrackRegister r block c` with `c < length block` returns `(e, i)`
exactly when `i` is the greatest index `≤ c` at which the block assigns register `r`
and `e` is operand 1 of that statement, and it returns "not found" exactly when the
block assigns `r` at no index `≤ c`; on `[Assign(r0, 1), Assign(r0, 2)]` tracking `r0`
from the end of the block gives `2`. -/
theorem TrackRegister_flat_most_recent (block : NodeBlock) (r c : Nat)
    (hflat : ∀ condition conditional_code, Node.Conditional condition conditional_code ∉ block)
    (hwf : ∀ operands, Node.Operation .Assign operands ∈ block → 2 ≤ operands.length)
    (hc : c < block.length) :
    (∀ i, MostRecentAssignAt r block c i →
        ∃ e, OperandOneAt block i e ∧ TrackRegister r block (c : Int) = .ok (some e, (i : Int))) ∧
    (∀ (e : Node) (p : Int), TrackRegister r block (c : Int) = .ok (some e, p) →
        ∃ i : Nat, p = (i : Int) ∧ MostRecentAssignAt r block c i ∧ OperandOneAt block i e) ∧
    (TrackRegister r block (c : Int) = .ok (none, 0) ↔
        ∀ i, i ≤ c → ¬ AssignsRegisterAt r block i) ∧
    TrackImmediate (.Gpr 0) tieBreakBlock 2 = .ok (some 2) := by
  have hscan := TrackRegister_flat_scan block r hflat hwf (c + 1) (by omega)
  have hcur : (((c + 1 : Nat) : Int) - 1) = (c : Int) := by push_cast; ring
  rw [hcur] at hscan
  refine ⟨?_, ?_, ?_, ?_⟩
  · rintro i ⟨hic, hA, hgreat⟩
    rcases hscan with ⟨-, hnone⟩ | ⟨k, e, hk, hAk, hO, hgreatk, hres⟩
    · exact absurd hA (hnone i (by omega))
    · have hik : i = k := by
        rcases Nat.lt_trichotomy i k with h | h | h
        · exact absurd hAk (hgreat k h (by omega))
        · exact h
        · exact absurd hA (hgreatk i h (by omega))
      subst hik
      exact ⟨e, hO, hres⟩
  · intro e p hp
    rcases hscan with ⟨hres, -⟩ | ⟨k, e', hk, hAk, hO, hgreatk, hres⟩
    · rw [hres] at hp
      cases hp
    · rw [hres] at hp
      cases hp
      exact ⟨k, rfl, ⟨by omega, hAk, fun j h1 h2 => hgreatk j h1 (by omega)⟩, hO⟩
  · constructor
    · intro hnf i hi hA
      rcases hscan with ⟨-, hnone⟩ | ⟨k, e, -, -, -, -, hres⟩
      · exact hnone i (by omega) hA
      · rw [hres] at hnf
        cases hnf
    · intro hnone
      rcases hscan with ⟨hres, -⟩ | ⟨k, e, hk, hAk, -, -, -⟩
      · exact hres
      · exact absurd hAk (hnone k (by omega))
  · simp [TrackImmediate, tieBreakBlock, TrackRegister_nonneg, FindOperation_nonneg]

/-- The most-recent-definition scenario of C1: in `[Assign(r0, 1), Assign(r0, 2)]` the
block is flat, its assignments have two operands, index 1 is the most recent
assignment of `r0`, and the tracker run from index 1 returns `Immediate(2)` found at
index 1. -/
theorem TrackRegister_flat_most_recent_witness :
    (1 < tieBreakBlock.length) ∧ MostRecentAssignAt 0 tieBreakBlock 1 1 ∧
    TrackRegister 0 tieBreakBlock 1 = .ok (some (.Immediate 2), 1) := by
  have hflat : ∀ condition conditional_code,
      Node.Conditional condition conditional_code ∉ tieBreakBlock := by
    simp [tieBreakBlock]
  have hwf : ∀ operands, Node.Operation .Assign operands ∈ tieBreakBlock →
      2 ≤ operands.length := by
    intro operands h
    simp only [tieBreakBlock, List.mem_cons, Node.Operation.injEq, true_and,
      List.mem_singleton, List.not_mem_nil, or_false] at h
    rcases h with rfl | rfl <;> simp
  have hlen : 1 < tieBreakBlock.length := by simp [tieBreakBlock]
  have hrecent : MostRecentAssignAt 0 tieBreakBlock 1 1 :=
    ⟨le_refl 1, ⟨_, rfl, rfl⟩, fun j h1 h2 => absurd h2 (by omega)⟩
  obtain ⟨e, ⟨code, operands, hstmt, hop⟩, hres⟩ :=
    (TrackRegister_flat_most_recent tieBreakBlock 0 1 hflat hwf hlen).1 1 hrecent
  simp only [tieBreakBlock, List.getElem?_cons_succ, List.getElem?_cons_zero,
    Option.some.injEq, Node.Operation.injEq] at hstmt
  obtain ⟨-, rfl⟩ := hstmt
  simp only [List.getElem?_cons_succ, List.getElem?_cons_zero, Option.some.injEq] at hop
  subst hop
  exact ⟨hlen, hrecent, hres⟩

/-! Section: Statement search and the last operation in program order -/

theorem lastOperationIn_append_singleton (opc : OperationCode) (code : NodeBlock)
    (node : Node) :
    lastOperationIn opc (code ++ [node]) =
      match node.lastOperation opc with
      | some found => some found
      | none => lastOperationIn opc code := by
  induction code with
  | nil =>
    simp only [List.nil_append, lastOperationIn]
    cases node.lastOperation opc <;> rfl
  | cons head rest ih =>
    rw [List.cons_append, lastOperationIn.eq_2, ih, lastOperationIn.eq_2]
    cases node.lastOperation opc <;> rfl

theorem lastOperationIn_take_succ (opc : OperationCode) (code : NodeBlock) (n : Nat)
    (node : Node) (h : code[n]? = some node) :
    lastOperationIn opc (code.take (n + 1)) =
      match node.lastOperation opc with
      | some found => some found
      | none => lastOperationIn opc (code.take n) := by
  rw [List.take_succ, h, Option.toList_some, lastOperationIn_append_singleton]

/-- The node `FindOperation` returns from an in-range cursor is the last operation
with the requested opcode, in program order, among the statements up to the cursor. -/
theorem FindOperation_eq_lastOperationIn (code : NodeBlock) (cursor : Int)
    (opc : OperationCode) (hc : cursor < code.length) :
    ∃ p, FindOperation code cursor opc =
      .ok (lastOperationIn opc (code.take (cursor + 1).toNat), p) := by
  induction code, cursor, opc using FindOperation.induct with
  | case1 code cursor opc h0 hnone =>
    rw [List.getElem?_eq_none_iff] at hnone
    omega
  | case2 code cursor h0 c operands hnode =>
    refine ⟨cursor, ?_⟩
    have hn : (cursor + 1).toNat = cursor.toNat + 1 := by omega
    rw [FindOperation_operation code cursor c c operands h0 hnode, if_pos rfl, hn,
      lastOperationIn_take_succ c code _ _ hnode]
    simp [Node.lastOperation]
  | case3 code cursor opc h0 c operands hnode hne ih =>
    obtain ⟨p, hp⟩ := ih (by omega)
    refine ⟨p, ?_⟩
    have hn : (cursor + 1).toNat = cursor.toNat + 1 := by omega
    have hn' : (cursor - 1 + 1).toNat = cursor.toNat := by simp
    rw [FindOperation_operation code cursor opc c operands h0 hnode, if_neg hne, hp, hn, hn',
      lastOperationIn_take_succ opc code _ _ hnode]
    simp [Node.lastOperation, hne]
  | case4 code cursor opc h0 condition conditional_code hnode e he ih =>
    obtain ⟨p, hp⟩ := ih (by omega)
    rw [he] at hp
    cases hp
  | case5 code cursor opc h0 condition conditional_code hnode found q hfound ih =>
    obtain ⟨p, hp⟩ := ih (by omega)
    rw [hfound] at hp
    have hlast : lastOperationIn opc conditional_code = some found := by
      have h1 : ((conditional_code.length : Int) - 1 + 1).toNat = conditional_code.length := by
        simp
      rw [h1, List.take_length] at hp
      simp only [Except.ok.injEq, Prod.mk.injEq] at hp
      exact hp.1.symm
    refine ⟨cursor, ?_⟩
    have hn : (cursor + 1).toNat = cursor.toNat + 1 := by omega
    rw [FindOperation_conditional code cursor opc condition conditional_code h0 hnode, hfound,
      hn, lastOperationIn_take_succ opc code _ _ hnode]
    simp [Node.lastOperation, hlast]
  | case6 code cursor opc h0 condition conditional_code hnode q hfound ihc ih =>
    obtain ⟨p, hp⟩ := ihc (by omega)
    rw [hfound] at hp
    have hlast : lastOperationIn opc conditional_code = none := by
      have h1 : ((conditional_code.length : Int) - 1 + 1).toNat = conditional_code.length := by
        simp
      rw [h1, List.take_length] at hp
      simp only [Except.ok.injEq, Prod.mk.injEq] at hp
      exact hp.1.symm
    obtain ⟨p', hp'⟩ := ih (by omega)
    refine ⟨p', ?_⟩
    have hn : (cursor + 1).toNat = cursor.toNat + 1 := by omega
    have hn' : (cursor - 1 + 1).toNat = cursor.toNat := by simp
    rw [FindOperation_conditional code cursor opc condition conditional_code h0 hnode, hfound,
      hn, lastOperationIn_take_succ opc code _ _ hnode]
    simp only [Node.lastOperation, hlast, hp', hn']
  | case7 code cursor opc h0 node hop hcond hnode ih =>
    obtain ⟨p, hp⟩ := ih (by omega)
    refine ⟨p, ?_⟩
    have hn : (cursor + 1).toNat = cursor.toNat + 1 := by omega
    have hn' : (cursor - 1 + 1).toNat = cursor.toNat := by simp
    rw [FindOperation_other code cursor opc node h0 hnode (fun c o h => hop c o h)
      (fun g cc h => hcond g cc h), hp, hn, hn', lastOperationIn_take_succ opc code _ _ hnode]
    cases node with
    | Operation c o => exact absurd rfl (hop c o)
    | Conditional g cc => exact absurd rfl (hcond g cc)
    | _ => simp [Node.lastOperation]
  | case8 code cursor opc hneg =>
    refine ⟨0, ?_⟩
    have hn : (cursor + 1).toNat = 0 := by omega
    rw [FindOperation_neg code cursor opc (by omega), hn]
    simp [lastOperationIn]

/-! Section: C2 -/

/-- C2, counterexample: in the body `[Assign(r0, 7), Assign(r1, 8)]` the most recent
assignment of `r0` is `Assign(r0, Immediate(7))`, yet tracking `r0` from the statement
after `Conditional(guard, body)` returns "not found": the search reports the last
assignment of the body, which targets `r1`, at the position of the conditional and the
tracker goes on above the conditional. -/
theorem TrackImmediate_conditional_body_shadowed :
    MostRecentAssignAt 0 shadowedBody 1 0 ∧
    OperandOneAt shadowedBody 0 (.Immediate 7) ∧
    TrackImmediate (.Gpr 0) [.Conditional (.Inert 0) shadowedBody, .Operation (.Other 0) [.Gpr 0]] 1
      = .ok none := by
  refine ⟨⟨by omega, ⟨_, rfl, rfl⟩, ?_⟩, ⟨_, _, rfl, rfl⟩, ?_⟩
  · intro j h1 h2
    have hj : j = 1 := by omega
    subst hj
    rintro ⟨operands, hstmt, htarget⟩
    simp only [shadowedBody, List.getElem?_cons_succ, List.getElem?_cons_zero,
      Option.some.injEq, Node.Operation.injEq, true_and] at hstmt
    subst hstmt
    simp at htarget
  · simp [TrackImmediate, shadowedBody, TrackRegister_nonneg, TrackRegister_neg,
      FindOperation_nonneg, FindOperation_neg]

/-- C2, amended: when the most recent `Assign` of the body of a conditional, whatever
its target and at any nesting depth, is `Assign(r, Immediate(v))`, tracking `r` from the
statement that follows the conditional in `[Conditional(guard, body), use]` succeeds
and returns `v`. -/
theorem TrackImmediate_conditional_body_last_assign (guard use : Node) (body : NodeBlock)
    (r v : Nat)
    (hlast : lastOperationIn .Assign body = some (.Operation .Assign [.Gpr r, .Immediate v])) :
    TrackImmediate (.Gpr r) [.Conditional guard body, use] 1 = .ok (some v) := by
  obtain ⟨p, hp⟩ := FindOperation_eq_lastOperationIn body ((body.length : Int) - 1) .Assign
    (by omega)
  have hn : ((body.length : Int) - 1 + 1).toNat = body.length := by simp
  rw [hn, List.take_length, hlast] at hp
  have hfind : FindOperation [.Conditional guard body, use] 0 .Assign =
      .ok (some (.Operation .Assign [.Gpr r, .Immediate v]), 0) := by
    rw [FindOperation_conditional _ 0 _ guard body (le_refl 0) rfl, hp]
  have hreg : TrackRegister r [.Conditional guard body, use] 0 = .ok (some (.Immediate v), 0) := by
    rw [TrackRegister_nonneg _ _ 0 (le_refl 0), hfind]
    simp
  simp only [TrackImmediate]
  rw [show ((1 : Int) - 1) = 0 from rfl, hreg]

/-- The conditional-body scenario of C2: with the body `[Assign(r0, Immediate(7))]`
tracking `r0` after the conditional returns `7`. -/
theorem TrackImmediate_conditional_body_last_assign_witness :
    lastOperationIn .Assign [.Operation .Assign [.Gpr 0, .Immediate 7]] =
      some (.Operation .Assign [.Gpr 0, .Immediate 7]) ∧
    TrackImmediate (.Gpr 0)
      [.Conditional (.Inert 0) [.Operation .Assign [.Gpr 0, .Immediate 7]],
        .Operation (.Other 0) [.Gpr 0]] 1 = .ok (some 7) :=
  ⟨by simp [lastOperationIn, Node.lastOperation],
    TrackImmediate_conditional_body_last_assign (.Inert 0) (.Operation (.Other 0) [.Gpr 0])
      [.Operation .Assign [.Gpr 0, .Immediate 7]] 0 7
      (by simp [lastOperationIn, Node.lastOperation])⟩

/-! Section: Fuel of the constant buffer tracker -/

theorem TrackCbufOperands_mono (f g : Node → Option (Except Fault (Option Node)))
    (hfg : ∀ operand result, f operand = some result → g operand = some result)
    (operands : List Node) (result : Except Fault (Option Node))
    (h : TrackCbufOperands f operands = some result) :
    TrackCbufOperands g operands = some result := by
  induction operands with
  | nil => simpa [TrackCbufOperands] using h
  | cons operand rest ih =>
    rw [TrackCbufOperands] at h ⊢
    cases hf : f operand with
    | none => rw [hf] at h; cases h
    | some r =>
      rw [hf] at h
      rw [hfg operand r hf]
      match r, h with
      | .error e, h => exact h
      | .ok (some found), h => exact h
      | .ok none, h => exact ih h

/-- One more unit of fuel does not change a result already reached. -/
theorem TrackCbuf_fuel_succ (zero_index : Nat) (fuel : Nat) :
    ∀ (tracked : Node) (code : NodeBlock) (cursor : Int) (result : Except Fault (Option Node)),
      TrackCbuf zero_index fuel tracked code cursor = some result →
      TrackCbuf zero_index (fuel + 1) tracked code cursor = some result := by
  induction fuel with
  | zero =>
    intro tracked code cursor result h
    simp [TrackCbuf] at h
  | succ fuel ih =>
    intro tracked code cursor result h
    cases tracked with
    | Cbuf index offset => simpa only [TrackCbuf] using h
    | Gpr index =>
      rw [TrackCbuf] at h ⊢
      by_cases hz : index = zero_index
      · simpa only [hz, if_true] using h
      · simp only [hz, if_false] at h ⊢
        match hreg : TrackRegister index code (cursor - 1), h with
        | .error e, h => simpa only [hreg] using h
        | .ok (none, q), h => simpa only [hreg] using h
        | .ok (some source, new_cursor), h =>
          simp only [hreg] at h ⊢
          exact ih _ _ _ _ h
    | Operation c operands =>
      rw [TrackCbuf] at h ⊢
      exact TrackCbufOperands_mono _ _ (fun operand r hr => ih operand code cursor r hr)
        operands result h
    | Conditional condition conditional_code =>
      rw [TrackCbuf] at h ⊢
      exact ih _ _ _ _ h
    | Immediate value => simpa only [TrackCbuf] using h
    | Inert kind => simpa only [TrackCbuf] using h

theorem TrackCbuf_fuel_mono (zero_index : Nat) (fuel fuel' : Nat) (hle : fuel ≤ fuel')
    (tracked : Node) (code : NodeBlock) (cursor : Int) (result : Except Fault (Option Node))
    (h : TrackCbuf zero_index fuel tracked code cursor = some result) :
    TrackCbuf zero_index fuel' tracked code cursor = some result := by
  induction hle with
  | refl => exact h
  | step _ ih => exact TrackCbuf_fuel_succ zero_index _ tracked code cursor result ih

/-- A call of `TrackCbuf` has at most one result. -/
theorem TrackCbufYields_unique (zero_index : Nat) (tracked : Node) (code : NodeBlock)
    (cursor : Int) (r₁ r₂ : Except Fault (Option Node))
    (h₁ : TrackCbufYields zero_index tracked code cursor r₁)
    (h₂ : TrackCbufYields zero_index tracked code cursor r₂) : r₁ = r₂ := by
  obtain ⟨f₁, h₁⟩ := h₁
  obtain ⟨f₂, h₂⟩ := h₂
  have e₁ := TrackCbuf_fuel_mono zero_index f₁ (max f₁ f₂) (le_max_left _ _) _ _ _ _ h₁
  have e₂ := TrackCbuf_fuel_mono zero_index f₂ (max f₁ f₂) (le_max_right _ _) _ _ _ _ h₂
  rw [e₁] at e₂
  exact Option.some.inj e₂

/-! Section: C3, C4, C5 -/

theorem TrackCbufOperands_found (f : Node → Option (Except Fault (Option Node)))
    (operands : List Node) (found : Node)
    (h : TrackCbufOperands f operands = some (.ok (some found))) :
    ∃ operand, operand ∈ operands ∧ f operand = some (.ok (some found)) := by
  induction operands with
  | nil => simp [TrackCbufOperands] at h
  | cons operand rest ih =>
    rw [TrackCbufOperands] at h
    match hf : f operand, h with
    | none, h => simp only [hf] at h; cases h
    | some (.error e), h => simp only [hf] at h; cases h
    | some (.ok (some n)), h =>
      simp only [hf, Option.some.injEq, Except.ok.injEq] at h
      subst h
      exact ⟨operand, List.mem_cons_self _ _, hf⟩
    | some (.ok none), h =>
      simp only [hf] at h
      obtain ⟨o, ho, hfo⟩ := ih h
      exact ⟨o, List.mem_cons_of_mem _ ho, hfo⟩

theorem TrackCbuf_found_shape (zero_index : Nat) (fuel : Nat) :
    ∀ (tracked : Node) (code : NodeBlock) (cursor : Int) (found : Node),
      TrackCbuf zero_index fuel tracked code cursor = some (.ok (some found)) →
      ∃ index value, found = .Cbuf index (.Immediate value) := by
  induction fuel with
  | zero =>
    intro tracked code cursor found h
    simp [TrackCbuf] at h
  | succ fuel ih =>
    intro tracked code cursor found h
    cases tracked with
    | Cbuf index offset =>
      cases offset with
      | Immediate value =>
        simp only [TrackCbuf, Option.some.injEq, Except.ok.injEq] at h
        exact ⟨index, value, h.symm⟩
      | _ => simp [TrackCbuf] at h
    | Gpr index =>
      rw [TrackCbuf] at h
      by_cases hz : index = zero_index
      · simp [hz] at h
      · simp only [hz, if_false] at h
        match hreg : TrackRegister index code (cursor - 1), h with
        | .error e, h => simp [hreg] at h
        | .ok (none, q), h => simp [hreg] at h
        | .ok (some source, new_cursor), h =>
          simp only [hreg] at h
          exact ih _ _ _ _ h
    | Operation c operands =>
      rw [TrackCbuf] at h
      obtain ⟨operand, -, hop⟩ := TrackCbufOperands_found _ operands found h
      exact ih _ _ _ _ hop
    | Conditional condition conditional_code =>
      rw [TrackCbuf] at h
      exact ih _ _ _ _ h
    | Immediate value => simp [TrackCbuf] at h
    | Inert kind => simp [TrackCbuf] at h

/-- C3: whenever `TrackCbuf` returns a node, for any tracked node, block and cursor,
that node is a constant buffer reference whose offset node is an `Immediate`. -/
theorem TrackCbuf_result_shape (zero_index : Nat) (tracked : Node) (code : NodeBlock)
    (cursor : Int) (found : Node)
    (h : TrackCbufYields zero_index tracked code cursor (.ok (some found))) :
    ∃ index value, found = .Cbuf index (.Immediate value) := by
  obtain ⟨fuel, hfuel⟩ := h
  exact TrackCbuf_found_shape zero_index fuel tracked code cursor found hfuel

/-- The end-to-end scenario as an instance of C3: tracking `r4` from the use site
returns a node, and that node is a constant buffer reference with an immediate offset. -/
theorem TrackCbuf_result_shape_witness :
    TrackCbufYields 255 (.Gpr 4) (chainBlock (.Inert 0)) 2 (.ok (some (.Cbuf 0 (.Immediate 4)))) ∧
    ∃ index value, Node.Cbuf 0 (.Immediate 4) = .Cbuf index (.Immediate value) :=
  have h : TrackCbufYields 255 (.Gpr 4) (chainBlock (.Inert 0)) 2
      (.ok (some (.Cbuf 0 (.Immediate 4)))) :=
    ⟨3, by simp [TrackCbuf, chainBlock, TrackRegister_nonneg, FindOperation_nonneg]⟩
  ⟨h, TrackCbuf_result_shape 255 (.Gpr 4) (chainBlock (.Inert 0)) 2 _ h⟩

/-- C4: on a constant buffer reference `TrackCbuf` returns the node itself when its
offset node is an `Immediate` and "not found" otherwise, whatever the block and the
cursor; `Cbuf(2, Immediate(16))` is returned, `Cbuf(2, RegisterRef(r1))` is not
resolved, also when the block defines `r1`. -/
theorem TrackCbuf_cbuf_immediate_offset (zero_index fuel index : Nat) (offset : Node)
    (code : NodeBlock) (cursor : Int) :
    TrackCbuf zero_index (fuel + 1) (.Cbuf index offset) code cursor =
        some (.ok (if offset.isImmediate then some (.Cbuf index offset) else none)) ∧
    TrackCbufYields zero_index (.Cbuf 2 (.Immediate 16)) code cursor
        (.ok (some (.Cbuf 2 (.Immediate 16)))) ∧
    TrackCbufYields zero_index (.Cbuf 2 (.Gpr 1)) code cursor (.ok none) ∧
    TrackCbufYields zero_index (.Cbuf 2 (.Gpr 1))
        [.Operation .Assign [.Gpr 1, .Immediate 16], .Inert 0] 1 (.ok none) := by
  refine ⟨?_, ⟨1, ?_⟩, ⟨1, ?_⟩, ⟨1, ?_⟩⟩
  · cases offset <;> simp [TrackCbuf, Node.isImmediate]
  all_goals simp [TrackCbuf]

/-- C5: for a register `r` other than the zero register, `TrackCbuf` on `Gpr r` at
cursor `c` is "not found" when `TrackRegister` from `c - 1` is "not found", and has
the result of `TrackCbuf` on `e` at `p` when `TrackRegister` returns `(e, p)`: with
one unit of fuel less, and as calls (one ends with a result exactly when the other
does).  On `[Assign(r3, Cbuf(0, 4)), Assign(r4, r3), use]` tracking `r4` from index 2
returns `Cbuf(0, Immediate(4))`. -/
theorem TrackCbuf_register_indirection (zero_index r : Nat) (code : NodeBlock) (cursor : Int)
    (hr : r ≠ zero_index) :
    (∀ q, TrackRegister r code (cursor - 1) = .ok (none, q) →
        ∀ fuel, TrackCbuf zero_index (fuel + 1) (.Gpr r) code cursor = some (.ok none)) ∧
    (∀ e p, TrackRegister r code (cursor - 1) = .ok (some e, p) →
        (∀ fuel, TrackCbuf zero_index (fuel + 1) (.Gpr r) code cursor =
            TrackCbuf zero_index fuel e code p) ∧
        ∀ result, TrackCbufYields zero_index (.Gpr r) code cursor result ↔
            TrackCbufYields zero_index e code p result) ∧
    (∀ use, 4 ≠ zero_index → 3 ≠ zero_index →
        TrackCbufYields zero_index (.Gpr 4) (chainBlock use) 2
          (.ok (some (.Cbuf 0 (.Immediate 4))))) := by
  refine ⟨?_, ?_, ?_⟩
  · intro q hq fuel
    rw [TrackCbuf]
    simp only [hr, if_false, hq]
  · intro e p hreg
    have hstep : ∀ fuel, TrackCbuf zero_index (fuel + 1) (.Gpr r) code cursor =
        TrackCbuf zero_index fuel e code p := by
      intro fuel
      rw [TrackCbuf]
      simp only [hr, if_false, hreg]
    refine ⟨hstep, fun result => ⟨?_, ?_⟩⟩
    · rintro ⟨fuel, hfuel⟩
      cases fuel with
      | zero => simp [TrackCbuf] at hfuel
      | succ fuel => exact ⟨fuel, by rw [← hstep fuel]; exact hfuel⟩
    · rintro ⟨fuel, hfuel⟩
      exact ⟨fuel + 1, by rw [hstep fuel]; exact hfuel⟩
  · intro use h4 h3
    refine ⟨3, ?_⟩
    simp [TrackCbuf, chainBlock, TrackRegister_nonneg, FindOperation_nonneg, h4, h3]

/-- The end-to-end scenario as an instance of C5: `r4` is not the zero register 255,
`TrackRegister` from index 1 returns `(r3, 1)`, so tracking `r4` at cursor 2 is tracking
`r3` at cursor 1. -/
theorem TrackCbuf_register_indirection_witness :
    (4 ≠ 255) ∧
    TrackRegister 4 (chainBlock (.Inert 0)) (2 - 1) = .ok (some (.Gpr 3), 1) ∧
    ∀ fuel, TrackCbuf 255 (fuel + 1) (.Gpr 4) (chainBlock (.Inert 0)) 2 =
      TrackCbuf 255 fuel (.Gpr 3) (chainBlock (.Inert 0)) 1 :=
  have hreg : TrackRegister 4 (chainBlock (.Inert 0)) (2 - 1) = .ok (some (.Gpr 3), 1) := by
    simp [chainBlock, TrackRegister_nonneg, FindOperation_nonneg]
  ⟨by decide, hreg,
    ((TrackCbuf_register_indirection 255 4 (chainBlock (.Inert 0)) 2 (by decide)).2.1
      (.Gpr 3) 1 hreg).1⟩

/-! Section: C6 -/

theorem TrackCbufOperands_first_found (f : Node → Option (Except Fault (Option Node)))
    (operands : List Node) :
    ∀ (i : Nat) (operand found : Node), operands[i]? = some operand →
      (∀ j o, j < i → operands[j]? = some o → f o = some (.ok none)) →
      f operand = some (.ok (some found)) →
      TrackCbufOperands f operands = some (.ok (some found)) := by
  induction operands with
  | nil => intro i operand found h; simp at h
  | cons head rest ih =>
    intro i operand found h hbefore hfound
    rw [TrackCbufOperands]
    cases i with
    | zero =>
      simp only [List.getElem?_cons_zero, Option.some.injEq] at h
      subst h
      simp only [hfound]
    | succ i =>
      simp only [List.getElem?_cons_succ] at h
      have hhead := hbefore 0 head (Nat.succ_pos i) (by simp)
      simp only [hhead]
      exact ih i operand found h
        (fun j o hj ho => hbefore (j + 1) o (by omega) (by simpa using ho)) hfound

theorem TrackCbufOperands_none_found (f : Node → Option (Except Fault (Option Node)))
    (operands : List Node) (h : ∀ o, o ∈ operands → f o = some (.ok none)) :
    TrackCbufOperands f operands = some (.ok none) := by
  induction operands with
  | nil => rfl
  | cons head rest ih =>
    rw [TrackCbufOperands]
    simp only [h head (List.mem_cons_self _ _)]
    exact ih (fun o ho => h o (List.mem_cons_of_mem _ ho))

/-- Finitely many operand trackings that all return "not found" do so with a common
amount of fuel. -/
theorem TrackCbuf_common_fuel (zero_index : Nat) (code : NodeBlock) (cursor : Int)
    (operands : List Node) (i : Nat)
    (h : ∀ j o, j < i → operands[j]? = some o →
      TrackCbufYields zero_index o code cursor (.ok none)) :
    ∃ fuel, ∀ j o, j < i → operands[j]? = some o →
      TrackCbuf zero_index fuel o code cursor = some (.ok none) := by
  induction i with
  | zero => exact ⟨0, fun j o hj => absurd hj (Nat.not_lt_zero j)⟩
  | succ i ih =>
    obtain ⟨fuel, hfuel⟩ := ih (fun j o hj ho => h j o (by omega) ho)
    cases hi : operands[i]? with
    | none =>
      refine ⟨fuel, fun j o hj ho => ?_⟩
      rcases Nat.lt_succ_iff_lt_or_eq.mp hj with hlt | heq
      · exact hfuel j o hlt ho
      · subst heq; rw [hi] at ho; cases ho
    | some last =>
      obtain ⟨fuel', hfuel'⟩ := h i last (Nat.lt_succ_self i) hi
      refine ⟨max fuel fuel', fun j o hj ho => ?_⟩
      rcases Nat.lt_succ_iff_lt_or_eq.mp hj with hlt | heq
      · exact TrackCbuf_fuel_mono zero_index fuel _ (le_max_left _ _) _ _ _ _ (hfuel j o hlt ho)
      · subst heq
        rw [hi] at ho
        cases ho
        exact TrackCbuf_fuel_mono zero_index fuel' _ (le_max_right _ _) _ _ _ _ hfuel'

/-- C6, counterexample: on the empty block with cursor 1 the tracking of the first
operand of `Add(r1, Cbuf(2, Immediate(16)))` returns no node (`code.at(0)` throws), the
tracking of the second operand returns `Cbuf(2, Immediate(16))`, so index 1 is the
least index at which an operand is found; the tracking of the operation does not
return that node, it ends with the exception of its first operand. -/
theorem TrackCbuf_operation_first_operand_throws :
    (∀ found, ¬ TrackCbufYields 255 (.Gpr 1) [] 1 (.ok (some found))) ∧
    TrackCbufYields 255 (.Cbuf 2 (.Immediate 16)) [] 1 (.ok (some (.Cbuf 2 (.Immediate 16)))) ∧
    TrackCbufYields 255 registerThenCbuf [] 1 (.error .outOfRange) ∧
    ¬ TrackCbufYields 255 registerThenCbuf [] 1 (.ok (some (.Cbuf 2 (.Immediate 16)))) := by
  have hreg : TrackCbufYields 255 (.Gpr 1) [] 1 (.error .outOfRange) :=
    ⟨1, by simp [TrackCbuf, TrackRegister_nonneg, FindOperation_nonneg]⟩
  have hop : TrackCbufYields 255 registerThenCbuf [] 1 (.error .outOfRange) :=
    ⟨2, by simp [registerThenCbuf, TrackCbuf, TrackCbufOperands, TrackRegister_nonneg,
      FindOperation_nonneg]⟩
  refine ⟨fun found h => ?_, ⟨1, by simp [TrackCbuf]⟩, hop, fun h => ?_⟩
  · cases TrackCbufYields_unique _ _ _ _ _ _ hreg h
  · cases TrackCbufYields_unique _ _ _ _ _ _ hop h

/-- C6, amended: for an `Operation` node with operands `o_0 .. o_(n-1)`, any block and
any cursor, when the tracking of every operand before index `i` returns "not found" and
the tracking of `o_i` returns a node, `TrackCbuf` on the operation returns that node;
when the tracking of every operand returns "not found" (in particular for `n = 0`) it
returns "not found". -/
theorem TrackCbuf_operation_first_success (zero_index : Nat) (c : OperationCode)
    (operands : List Node) (code : NodeBlock) (cursor : Int) :
    (∀ (i : Nat) (operand found : Node), operands[i]? = some operand →
      (∀ j o, j < i → operands[j]? = some o →
        TrackCbufYields zero_index o code cursor (.ok none)) →
      TrackCbufYields zero_index operand code cursor (.ok (some found)) →
      TrackCbufYields zero_index (.Operation c operands) code cursor (.ok (some found))) ∧
    ((∀ o, o ∈ operands → TrackCbufYields zero_index o code cursor (.ok none)) →
      TrackCbufYields zero_index (.Operation c operands) code cursor (.ok none)) := by
  constructor
  · intro i operand found hi hbefore hfound
    obtain ⟨fuel, hfuel⟩ := TrackCbuf_common_fuel zero_index code cursor operands i hbefore
    obtain ⟨fuel', hfuel'⟩ := hfound
    refine ⟨max fuel fuel' + 1, ?_⟩
    rw [TrackCbuf]
    exact TrackCbufOperands_first_found _ operands i operand found hi
      (fun j o hj ho =>
        TrackCbuf_fuel_mono zero_index fuel _ (le_max_left _ _) _ _ _ _ (hfuel j o hj ho))
      (TrackCbuf_fuel_mono zero_index fuel' _ (le_max_right _ _) _ _ _ _ hfuel')
  · intro hall
    obtain ⟨fuel, hfuel⟩ := TrackCbuf_common_fuel zero_index code cursor operands
      operands.length (fun j o _ ho => hall o (List.getElem?_mem ho))
    refine ⟨fuel + 1, ?_⟩
    rw [TrackCbuf]
    apply TrackCbufOperands_none_found
    intro o ho
    obtain ⟨j, hj, hjo⟩ := List.getElem_of_mem ho
    exact hfuel j o hj (by rw [List.getElem?_eq_getElem hj, hjo])

/-- The operand-order scenario of C6: in `Add(A, B)` with `A` an inert node, whose
tracking returns "not found", and `B = Cbuf(2, Immediate(16))`, whose tracking
succeeds, the result is the result of `B`. -/
theorem TrackCbuf_operation_first_success_witness :
    TrackCbufYields 255 (.Inert 0) [] 0 (.ok none) ∧
    TrackCbufYields 255 (.Cbuf 2 (.Immediate 16)) [] 0 (.ok (some (.Cbuf 2 (.Immediate 16)))) ∧
    TrackCbufYields 255 (.Operation (.Other 0) [.Inert 0, .Cbuf 2 (.Immediate 16)]) [] 0
      (.ok (some (.Cbuf 2 (.Immediate 16)))) :=
  have hA : TrackCbufYields 255 (.Inert 0) [] 0 (.ok none) := ⟨1, by simp [TrackCbuf]⟩
  have hB : TrackCbufYields 255 (.Cbuf 2 (.Immediate 16)) [] 0
      (.ok (some (.Cbuf 2 (.Immediate 16)))) := ⟨1, by simp [TrackCbuf]⟩
  ⟨hA, hB,
    (TrackCbuf_operation_first_success 255 (.Other 0) [.Inert 0, .Cbuf 2 (.Immediate 16)] [] 0).1
      1 (.Cbuf 2 (.Immediate 16)) (.Cbuf 2 (.Immediate 16)) rfl
      (fun j o hj ho => by
        have hj0 : j = 0 := by omega
        subst hj0
        simp only [List.getElem?_cons_zero, Option.some.injEq] at ho
        subst ho
        exact hA)
      hB⟩

/-! Section: C7, C8, C9 -/

/-- C7: for a register reference `r`, any block and any cursor `c` (in particular
`0 ≤ c ≤ length`), `TrackImmediate` returns `v` if and only if `TrackRegister` from
`c - 1` returns an expression that is `Immediate(v)`; it returns "not found" when
`TrackRegister` is "not found" or returns an expression that is not an `Immediate`.
On `[Assign(r1, Immediate(3)), Assign(r0, r1)]` tracking `r0` from the end of the
block is "not found". -/
theorem TrackImmediate_one_level (r : Nat) (code : NodeBlock) (cursor : Int) :
    (∀ v, TrackImmediate (.Gpr r) code cursor = .ok (some v) ↔
        ∃ p, TrackRegister r code (cursor - 1) = .ok (some (.Immediate v), p)) ∧
    (∀ q, TrackRegister r code (cursor - 1) = .ok (none, q) →
        TrackImmediate (.Gpr r) code cursor = .ok none) ∧
    (∀ e p, TrackRegister r code (cursor - 1) = .ok (some e, p) → e.isImmediate = false →
        TrackImmediate (.Gpr r) code cursor = .ok none) ∧
    TrackImmediate (.Gpr 0) twoLevelBlock 2 = .ok none := by
  refine ⟨fun v => ⟨?_, ?_⟩, ?_, ?_, ?_⟩
  · intro h
    simp only [TrackImmediate] at h
    match hreg : TrackRegister r code (cursor - 1), h with
    | .error e, h => simp [hreg] at h
    | .ok (none, q), h => simp [hreg] at h
    | .ok (some (.Immediate value), p), h =>
      simp only [hreg, Except.ok.injEq, Option.some.injEq] at h
      exact ⟨p, by rw [h]⟩
    | .ok (some (.Operation _ _), p), h => simp [hreg] at h
    | .ok (some (.Conditional _ _), p), h => simp [hreg] at h
    | .ok (some (.Gpr _), p), h => simp [hreg] at h
    | .ok (some (.Cbuf _ _), p), h => simp [hreg] at h
    | .ok (some (.Inert _), p), h => simp [hreg] at h
  · rintro ⟨p, hp⟩
    simp only [TrackImmediate, hp]
  · intro q hq
    simp only [TrackImmediate, hq]
  · intro e p hp he
    simp only [TrackImmediate, hp]
    cases e <;> simp_all [Node.isImmediate]
  · simp [TrackImmediate, twoLevelBlock, TrackRegister_nonneg, FindOperation_nonneg]

/-- The two-level scenario as an instance of C7: `TrackRegister` returns the register
reference `r1`, which is not an `Immediate`, so `TrackImmediate` is "not found". -/
theorem TrackImmediate_one_level_witness :
    TrackRegister 0 twoLevelBlock (2 - 1) = .ok (some (.Gpr 1), 1) ∧
    (Node.Gpr 1).isImmediate = false ∧
    TrackImmediate (.Gpr 0) twoLevelBlock 2 = .ok none :=
  have hreg : TrackRegister 0 twoLevelBlock (2 - 1) = .ok (some (.Gpr 1), 1) := by
    simp [twoLevelBlock, TrackRegister_nonneg, FindOperation_nonneg]
  ⟨hreg, rfl, (TrackImmediate_one_level 0 twoLevelBlock 2).2.2.1 (.Gpr 1) 1 hreg rfl⟩

/-- C8: `TrackCbuf` on the register reference whose index is the zero register returns
"not found" for every block and every cursor, with any positive fuel; so it does on a
block that assigns the zero register. -/
theorem TrackCbuf_zero_register (zero_index fuel : Nat) (code : NodeBlock) (cursor : Int) :
    TrackCbuf zero_index (fuel + 1) (.Gpr zero_index) code cursor = some (.ok none) ∧
    TrackCbufYields zero_index (.Gpr zero_index) code cursor (.ok none) ∧
    TrackCbufYields zero_index (.Gpr zero_index)
      [.Operation .Assign [.Gpr zero_index, .Cbuf 0 (.Immediate 4)], .Inert 0] 1 (.ok none) := by
  refine ⟨?_, ⟨1, ?_⟩, ⟨1, ?_⟩⟩ <;> simp [TrackCbuf]

/-- C9, the behaviour of the code: `TrackRegister` and `TrackImmediate` do not test the
zero register.  On `[Assign(RZ, Immediate(5))]` tracked from the end of the block,
`TrackRegister` returns `Immediate(5)` found at index 0 and `TrackImmediate` returns
`5`, whatever index the zero register has, while `TrackCbuf` on the same input is "not
found". -/
theorem TrackImmediate_zero_register_resolved (zero_index : Nat) :
    TrackRegister zero_index [.Operation .Assign [.Gpr zero_index, .Immediate 5]] 0
      = .ok (some (.Immediate 5), 0) ∧
    TrackImmediate (.Gpr zero_index) [.Operation .Assign [.Gpr zero_index, .Immediate 5]] 1
      = .ok (some 5) ∧
    TrackCbuf zero_index 1 (.Gpr zero_index)
      [.Operation .Assign [.Gpr zero_index, .Immediate 5]] 1 = some (.ok none) := by
  refine ⟨?_, ?_, ?_⟩
  · simp [TrackRegister_nonneg, FindOperation_nonneg]
  · simp [TrackImmediate, TrackRegister_nonneg, FindOperation_nonneg]
  · simp [TrackCbuf]

/-! Section: C10 -/

theorem OccursIn_mono (n : Node) (a b : NodeBlock) (hab : ∀ x, x ∈ a → x ∈ b)
    (h : OccursIn n a) : OccursIn n b := by
  cases h with
  | here hmem => exact .here (hab _ hmem)
  | nested hmem hin => exact .nested (hab _ hmem) hin

theorem mem_take_succ_of_mem_take (code : NodeBlock) (n : Nat) (x : Node)
    (h : x ∈ code.take n) : x ∈ code.take (n + 1) := by
  rw [List.take_succ]
  exact List.mem_append_left _ h

theorem mem_take_succ_of_getElem? (code : NodeBlock) (n : Nat) (x : Node)
    (h : code[n]? = some x) : x ∈ code.take (n + 1) := by
  rw [List.take_succ, h]
  simp

/-- What `FindOperation` finds is an operation with the requested opcode that lies in
the statements up to the cursor, and the position returned is between 0 and the
cursor. -/
theorem FindOperation_found_occurs (code : NodeBlock) (cursor : Int) (opc : OperationCode) :
    ∀ (found : Node) (p : Int), FindOperation code cursor opc = .ok (some found, p) →
      OccursIn found (code.take (cursor + 1).toNat) ∧
      (∃ operands, found = .Operation opc operands) ∧ 0 ≤ p ∧ p ≤ cursor := by
  induction code, cursor, opc using FindOperation.induct with
  | case1 code cursor opc h0 hnone =>
    intro found p h
    rw [FindOperation_nonneg code cursor opc h0, hnone] at h
    cases h
  | case2 code cursor h0 c operands hnode =>
    intro found p h
    rw [FindOperation_operation code cursor c c operands h0 hnode, if_pos rfl] at h
    simp only [Except.ok.injEq, Prod.mk.injEq, Option.some.injEq] at h
    obtain ⟨rfl, rfl⟩ := h
    have hn : (cursor + 1).toNat = cursor.toNat + 1 := by omega
    rw [hn]
    exact ⟨.here (mem_take_succ_of_getElem? code _ _ hnode), ⟨operands, rfl⟩, h0, le_refl _⟩
  | case3 code cursor opc h0 c operands hnode hne ih =>
    intro found p h
    rw [FindOperation_operation code cursor opc c operands h0 hnode, if_neg hne] at h
    obtain ⟨hin, hshape, hp0, hp⟩ := ih found p h
    have hn : (cursor + 1).toNat = cursor.toNat + 1 := by omega
    have hn' : (cursor - 1 + 1).toNat = cursor.toNat := by simp
    rw [hn'] at hin
    rw [hn]
    exact ⟨OccursIn_mono _ _ _ (mem_take_succ_of_mem_take code _) hin, hshape, hp0, by omega⟩
  | case4 code cursor opc h0 condition conditional_code hnode e he ih =>
    intro found p h
    rw [FindOperation_conditional code cursor opc condition conditional_code h0 hnode, he] at h
    cases h
  | case5 code cursor opc h0 condition conditional_code hnode inner q hinner ih =>
    intro found p h
    rw [FindOperation_conditional code cursor opc condition conditional_code h0 hnode,
      hinner] at h
    simp only [Except.ok.injEq, Prod.mk.injEq, Option.some.injEq] at h
    obtain ⟨rfl, rfl⟩ := h
    obtain ⟨hin, hshape, -, -⟩ := ih inner q hinner
    have h1 : ((conditional_code.length : Int) - 1 + 1).toNat = conditional_code.length := by
      simp
    rw [h1, List.take_length] at hin
    have hn : (cursor + 1).toNat = cursor.toNat + 1 := by omega
    rw [hn]
    exact ⟨.nested (mem_take_succ_of_getElem? code _ _ hnode) hin, hshape, h0, le_refl _⟩
  | case6 code cursor opc h0 condition conditional_code hnode q hinner ihc ih =>
    intro found p h
    rw [FindOperation_conditional code cursor opc condition conditional_code h0 hnode,
      hinner] at h
    obtain ⟨hin, hshape, hp0, hp⟩ := ih found p h
    have hn : (cursor + 1).toNat = cursor.toNat + 1 := by omega
    have hn' : (cursor - 1 + 1).toNat = cursor.toNat := by simp
    rw [hn'] at hin
    rw [hn]
    exact ⟨OccursIn_mono _ _ _ (mem_take_succ_of_mem_take code _) hin, hshape, hp0, by omega⟩
  | case7 code cursor opc h0 node hop hcond hnode ih =>
    intro found p h
    rw [FindOperation_other code cursor opc node h0 hnode (fun c o h => hop c o h)
      (fun g cc h => hcond g cc h)] at h
    obtain ⟨hin, hshape, hp0, hp⟩ := ih found p h
    have hn : (cursor + 1).toNat = cursor.toNat + 1 := by omega
    have hn' : (cursor - 1 + 1).toNat = cursor.toNat := by simp
    rw [hn'] at hin
    rw [hn]
    exact ⟨OccursIn_mono _ _ _ (mem_take_succ_of_mem_take code _) hin, hshape, hp0, by omega⟩
  | case8 code cursor opc hneg =>
    intro found p h
    rw [FindOperation_neg code cursor opc (by omega)] at h
    cases h

/-- When every `Assign` lying in the first `n` statements, at any nesting depth, has a
target operand other than register `r`, the tracker run from `n - 1` is "not found". -/
theorem TrackRegister_not_found_of_no_assign (r : Nat) (code : NodeBlock) (n : Nat)
    (hn : n ≤ code.length)
    (h : ∀ operands, OccursIn (.Operation .Assign operands) (code.take n) →
      ∃ target, operands[0]? = some target ∧ target ≠ .Gpr r) :
    TrackRegister r code ((n : Int) - 1) = .ok (none, 0) := by
  induction n with
  | zero => exact TrackRegister_neg r code _ (by simp)
  | succ n ih =>
    have ih := ih (by omega) (fun operands hin =>
      h operands (OccursIn_mono _ _ _ (mem_take_succ_of_mem_take code n) hin))
    have hcur : (((n + 1 : Nat) : Int) - 1) = (n : Int) := by push_cast; ring
    rw [hcur]
    have h0 : (0 : Int) ≤ (n : Int) := Int.natCast_nonneg n
    obtain ⟨p, hp⟩ := FindOperation_eq_lastOperationIn code (n : Int) .Assign (by omega)
    rw [TrackRegister_nonneg r code _ h0]
    cases hlast : lastOperationIn .Assign (code.take ((n : Int) + 1).toNat) with
    | none =>
      rw [hlast] at hp
      rw [hp]
    | some found =>
      rw [hlast] at hp
      obtain ⟨hin, ⟨operands, rfl⟩, -, -⟩ := FindOperation_found_occurs code _ _ found p hp
      have hn1 : ((n : Int) + 1).toNat = n + 1 := by omega
      rw [hn1] at hin
      obtain ⟨target, htarget, hne⟩ := h operands hin
      rw [hp]
      simp only [htarget]
      cases target with
      | Gpr index =>
        have hidx : index ≠ r := fun e => hne (by rw [e])
        simp only [hidx, if_false]
        exact ih
      | _ => exact ih

/-- C10: for every block of the data model (every `Assign` has its target operand),
every register `r` and every cursor `c < length` such that no statement at an index
below `c`, at any conditional nesting depth, is an `Assign` whose target is register
`r`, `TrackImmediate` and `TrackCbuf` on `r` at cursor `c` return "not found" (`TrackCbuf`
with any positive fuel), whatever the statement at index `c` is: the statement at the
cursor is never matched. -/
theorem Track_no_prior_assign (zero_index r : Nat) (block : NodeBlock) (c : Nat)
    (hc : c < block.length) (hinv : AssignsHaveTarget block)
    (hprior : ∀ operands, OccursIn (.Operation .Assign operands) (block.take c) →
      operands[0]? ≠ some (.Gpr r)) :
    TrackImmediate (.Gpr r) block (c : Int) = .ok none ∧
    (∀ fuel, TrackCbuf zero_index (fuel + 1) (.Gpr r) block (c : Int) = some (.ok none)) ∧
    TrackCbufYields zero_index (.Gpr r) block (c : Int) (.ok none) := by
  have hreg := TrackRegister_not_found_of_no_assign r block c (by omega)
    (fun operands hin => by
      obtain ⟨target, htarget⟩ :=
        hinv operands (OccursIn_mono _ _ _ (fun y hy => List.mem_of_mem_take hy) hin)
      exact ⟨target, htarget, fun e => hprior operands hin (by rw [htarget, e])⟩)
  have hcbuf : ∀ fuel, TrackCbuf zero_index (fuel + 1) (.Gpr r) block (c : Int) =
      some (.ok none) := by
    intro fuel
    rw [TrackCbuf]
    by_cases hz : r = zero_index
    · simp only [hz, if_true]
    · simp only [hz, if_false, hreg]
  refine ⟨?_, hcbuf, ⟨1, hcbuf 0⟩⟩
  simp only [TrackImmediate, hreg]

/-- The self-assignment scenario of C10: `[Assign(r0, Add(r0, Immediate(5)))]` is a block
of the data model, the cursor 0 is in range and there is no statement below it; with the
search starting at that statement both trackers return "not found". -/
theorem Track_no_prior_assign_witness :
    (0 < selfAssignBlock.length) ∧ AssignsHaveTarget selfAssignBlock ∧
    TrackImmediate (.Gpr 0) selfAssignBlock 0 = .ok none ∧
    TrackCbufYields 255 (.Gpr 0) selfAssignBlock 0 (.ok none) :=
  have hinv : AssignsHaveTarget selfAssignBlock := by
    intro operands hin
    cases hin with
    | here hmem =>
      simp only [selfAssignBlock, List.mem_singleton, Node.Operation.injEq, true_and] at hmem
      subst hmem
      exact ⟨_, rfl⟩
    | nested hmem _ => simp [selfAssignBlock] at hmem
  have h := Track_no_prior_assign 255 0 selfAssignBlock 0 (by simp [selfAssignBlock]) hinv
    (fun operands hin => by
      cases hin with
      | here hmem => simp at hmem
      | nested hmem _ => simp at hmem)
  ⟨by simp [selfAssignBlock], hinv, h.1, h.2.2⟩

/-! Section: C11 -/

/-- On a `Conditional` node `TrackCbuf` runs out of any amount of fuel: each call makes
the same call on the nested block. -/
theorem TrackCbuf_conditional_none (zero_index : Nat) (condition : Node)
    (conditional_code : NodeBlock) (fuel : Nat) :
    ∀ (code : NodeBlock) (cursor : Int),
      TrackCbuf zero_index fuel (.Conditional condition conditional_code) code cursor = none := by
  induction fuel with
  | zero => intro code cursor; rfl
  | succ fuel ih =>
    intro code cursor
    rw [TrackCbuf]
    exact ih _ _

/-- C11, the behaviour of the code: `TrackCbuf` on a `Conditional` node calls itself
with the same tracked node, the nested block and its length, so the call reaches the
same branch again: no amount of fuel lets it return, for any block and cursor, in
particular for `Conditional(cond, [])` on the empty block at cursor 0. -/
theorem TrackCbuf_conditional_never_returns (zero_index : Nat) (condition : Node)
    (conditional_code : NodeBlock) :
    (∀ (fuel : Nat) (code : NodeBlock) (cursor : Int),
      TrackCbuf zero_index fuel (.Conditional condition conditional_code) code cursor = none) ∧
    (∀ (code : NodeBlock) (cursor : Int) (result : Except Fault (Option Node)),
      ¬ TrackCbufYields zero_index (.Conditional condition conditional_code) code cursor result) ∧
    ∀ result, ¬ TrackCbufYields zero_index (.Conditional (.Inert 0) []) [] 0 result := by
  refine ⟨fun fuel => TrackCbuf_conditional_none zero_index _ _ fuel, ?_, ?_⟩
  · rintro code cursor result ⟨fuel, hfuel⟩
    rw [TrackCbuf_conditional_none] at hfuel
    cases hfuel
  · rintro result ⟨fuel, hfuel⟩
    rw [TrackCbuf_conditional_none] at hfuel
    cases hfuel

/-! Section: Statement search, position of the match -/

/-- A search that finds its node at position `p` finds the same from every cursor
between `p` and the cursor it was started from. -/
theorem FindOperation_stable (code : NodeBlock) (cursor : Int) (opc : OperationCode) :
    ∀ (found : Node) (p : Int), FindOperation code cursor opc = .ok (some found, p) →
      ∀ k, p ≤ k → k ≤ cursor → FindOperation code k opc = .ok (some found, p) := by
  induction code, cursor, opc using FindOperation.induct with
  | case1 code cursor opc h0 hnone =>
    intro found p h
    rw [FindOperation_nonneg code cursor opc h0, hnone] at h
    cases h
  | case2 code cursor h0 c operands hnode =>
    intro found p h k hpk hkc
    have h' := h
    rw [FindOperation_operation code cursor c c operands h0 hnode, if_pos rfl] at h'
    simp only [Except.ok.injEq, Prod.mk.injEq] at h'
    have hk : k = cursor := by omega
    rw [hk]
    exact h
  | case3 code cursor opc h0 c operands hnode hne ih =>
    intro found p h k hpk hkc
    by_cases hk : k = cursor
    · rw [hk]; exact h
    · rw [FindOperation_operation code cursor opc c operands h0 hnode, if_neg hne] at h
      exact ih found p h k hpk (by omega)
  | case4 code cursor opc h0 condition conditional_code hnode e he ih =>
    intro found p h
    rw [FindOperation_conditional code cursor opc condition conditional_code h0 hnode, he] at h
    cases h
  | case5 code cursor opc h0 condition conditional_code hnode inner q hinner ih =>
    intro found p h k hpk hkc
    have h' := h
    rw [FindOperation_conditional code cursor opc condition conditional_code h0 hnode,
      hinner] at h'
    simp only [Except.ok.injEq, Prod.mk.injEq] at h'
    have hk : k = cursor := by omega
    rw [hk]
    exact h
  | case6 code cursor opc h0 condition conditional_code hnode q hinner ihc ih =>
    intro found p h k hpk hkc
    by_cases hk : k = cursor
    · rw [hk]; exact h
    · rw [FindOperation_conditional code cursor opc condition conditional_code h0 hnode,
        hinner] at h
      exact ih found p h k hpk (by omega)
  | case7 code cursor opc h0 node hop hcond hnode ih =>
    intro found p h k hpk hkc
    by_cases hk : k = cursor
    · rw [hk]; exact h
    · rw [FindOperation_other code cursor opc node h0 hnode (fun c o h => hop c o h)
        (fun g cc h => hcond g cc h)] at h
      exact ih found p h k hpk (by omega)
  | case8 code cursor opc hneg =>
    intro found p h
    rw [FindOperation_neg code cursor opc (by omega)] at h
    cases h

theorem not_occursIn_of_not_containsOperation (opc : OperationCode) (code : NodeBlock)
    (h : ∀ s, s ∈ code → ¬ ContainsOperation opc s) (operands : List Node) :
    ¬ OccursIn (.Operation opc operands) code := by
  intro hin
  cases hin with
  | here hmem => exact h _ hmem (Or.inl ⟨operands, rfl⟩)
  | nested hmem hinner => exact h _ hmem (Or.inr ⟨_, _, operands, rfl, hinner⟩)

/-- The two outcomes of a search from an in-range cursor.  Either it reports "not
found" and no statement up to the cursor holds the opcode, or it reports a node at the
greatest index up to the cursor whose statement holds the opcode, the statement itself
when that statement is an operation. -/
theorem FindOperation_spec (code : NodeBlock) (cursor : Int) (opc : OperationCode)
    (hc : cursor < code.length) :
    (FindOperation code cursor opc = .ok (none, 0) ∧
      ∀ (j : Nat) (s : Node), (j : Int) ≤ cursor → code[j]? = some s →
        ¬ ContainsOperation opc s) ∨
    (∃ (found : Node) (p : Nat) (s : Node),
      FindOperation code cursor opc = .ok (some found, (p : Int)) ∧ (p : Int) ≤ cursor ∧
      code[p]? = some s ∧ ContainsOperation opc s ∧
      (∀ c operands, s = .Operation c operands → found = s) ∧
      ∀ (j : Nat) (s' : Node), p < j → (j : Int) ≤ cursor → code[j]? = some s' →
        ¬ ContainsOperation opc s') := by
  induction code, cursor, opc using FindOperation.induct with
  | case1 code cursor opc h0 hnone =>
    rw [List.getElem?_eq_none_iff] at hnone
    omega
  | case2 code cursor h0 c operands hnode =>
    right
    refine ⟨.Operation c operands, cursor.toNat, .Operation c operands, ?_, by omega, hnode,
      Or.inl ⟨operands, rfl⟩, fun _ _ _ => rfl, fun j s' h1 h2 => by omega⟩
    rw [FindOperation_operation code cursor c c operands h0 hnode, if_pos rfl,
      Int.toNat_of_nonneg h0]
  | case3 code cursor opc h0 c operands hnode hne ih =>
    have hskip : ¬ ContainsOperation opc (.Operation c operands) := by
      rintro (⟨ops, h⟩ | ⟨g, cc, ops, h, -⟩)
      · simp only [Node.Operation.injEq] at h
        exact hne h.1
      · cases h
    rw [FindOperation_operation code cursor opc c operands h0 hnode, if_neg hne]
    rcases ih (by omega) with ⟨hres, hnone⟩ | ⟨found, p, s, hres, hp, hs, hcont, hself, hgreat⟩
    · left
      refine ⟨hres, fun j s' hj hs' => ?_⟩
      by_cases hjc : (j : Int) = cursor
      · have : j = cursor.toNat := by omega
        subst this
        rw [hnode] at hs'
        cases hs'
        exact hskip
      · exact hnone j s' (by omega) hs'
    · right
      refine ⟨found, p, s, hres, by omega, hs, hcont, hself, fun j s' h1 h2 hs' => ?_⟩
      by_cases hjc : (j : Int) = cursor
      · have : j = cursor.toNat := by omega
        subst this
        rw [hnode] at hs'
        cases hs'
        exact hskip
      · exact hgreat j s' h1 (by omega) hs'
  | case4 code cursor opc h0 condition conditional_code hnode e he ih =>
    rcases ih (by omega) with ⟨hres, -⟩ | ⟨found, p, s, hres, -⟩ <;>
      (rw [he] at hres; cases hres)
  | case5 code cursor opc h0 condition conditional_code hnode inner q hinner ih =>
    right
    obtain ⟨hin, ⟨ops, rfl⟩, -, -⟩ := FindOperation_found_occurs _ _ _ inner q hinner
    have h1 : ((conditional_code.length : Int) - 1 + 1).toNat = conditional_code.length := by
      simp
    rw [h1, List.take_length] at hin
    refine ⟨.Operation opc ops, cursor.toNat, .Conditional condition conditional_code, ?_,
      by omega, hnode, Or.inr ⟨_, _, ops, rfl, hin⟩, (fun c o h => by cases h),
      fun j s' h1 h2 => by omega⟩
    rw [FindOperation_conditional code cursor opc condition conditional_code h0 hnode, hinner,
      Int.toNat_of_nonneg h0]
  | case6 code cursor opc h0 condition conditional_code hnode q hinner ihc ih =>
    have hskip : ¬ ContainsOperation opc (.Conditional condition conditional_code) := by
      rintro (⟨ops, h⟩ | ⟨g, cc, ops, h, hin⟩)
      · cases h
      · simp only [Node.Conditional.injEq] at h
        obtain ⟨-, rfl⟩ := h
        rcases ihc (by omega) with ⟨-, hnone⟩ | ⟨found, p, s, hres, -⟩
        · refine not_occursIn_of_not_containsOperation opc _ (fun s hs => ?_) ops hin
          obtain ⟨j, hj, hjs⟩ := List.getElem_of_mem hs
          exact hnone j s (by omega) (by rw [List.getElem?_eq_getElem hj, hjs])
        · rw [hinner] at hres
          cases hres
    rw [FindOperation_conditional code cursor opc condition conditional_code h0 hnode, hinner]
    rcases ih (by omega) with ⟨hres, hnone⟩ | ⟨found, p, s, hres, hp, hs, hcont, hself, hgreat⟩
    · left
      refine ⟨hres, fun j s' hj hs' => ?_⟩
      by_cases hjc : (j : Int) = cursor
      · have : j = cursor.toNat := by omega
        subst this
        rw [hnode] at hs'
        cases hs'
        exact hskip
      · exact hnone j s' (by omega) hs'
    · right
      refine ⟨found, p, s, hres, by omega, hs, hcont, hself, fun j s' h1 h2 hs' => ?_⟩
      by_cases hjc : (j : Int) = cursor
      · have : j = cursor.toNat := by omega
        subst this
        rw [hnode] at hs'
        cases hs'
        exact hskip
      · exact hgreat j s' h1 (by omega) hs'
  | case7 code cursor opc h0 node hop hcond hnode ih =>
    have hskip : ¬ ContainsOperation opc node := by
      rintro (⟨ops, h⟩ | ⟨g, cc, ops, h, -⟩)
      · exact hop _ _ h
      · exact hcond _ _ h
    rw [FindOperation_other code cursor opc node h0 hnode (fun c o h => hop c o h)
      (fun g cc h => hcond g cc h)]
    rcases ih (by omega) with ⟨hres, hnone⟩ | ⟨found, p, s, hres, hp, hs, hcont, hself, hgreat⟩
    · left
      refine ⟨hres, fun j s' hj hs' => ?_⟩
      by_cases hjc : (j : Int) = cursor
      · have : j = cursor.toNat := by omega
        subst this
        rw [hnode] at hs'
        cases hs'
        exact hskip
      · exact hnone j s' (by omega) hs'
    · right
      refine ⟨found, p, s, hres, by omega, hs, hcont, hself, fun j s' h1 h2 hs' => ?_⟩
      by_cases hjc : (j : Int) = cursor
      · have : j = cursor.toNat := by omega
        subst this
        rw [hnode] at hs'
        cases hs'
        exact hskip
      · exact hgreat j s' h1 (by omega) hs'
  | case8 code cursor opc hneg =>
    left
    exact ⟨FindOperation_neg code cursor opc (by omega), fun j s hj => by omega⟩

/-! Section: C12, C13, C14 -/

/-- A statement that does not hold the opcode is passed by the backward scan. -/
theorem FindOperation_skip (code : NodeBlock) (cursor : Int) (opc : OperationCode) (s : Node)
    (h0 : 0 ≤ cursor) (hs : code[cursor.toNat]? = some s) (hno : ¬ ContainsOperation opc s) :
    FindOperation code cursor opc = FindOperation code (cursor - 1) opc := by
  cases s with
  | Operation c operands =>
    have hne : c ≠ opc := fun h => hno (Or.inl ⟨operands, by rw [h]⟩)
    rw [FindOperation_operation code cursor opc c operands h0 hs, if_neg hne]
  | Conditional condition conditional_code =>
    rw [FindOperation_conditional code cursor opc condition conditional_code h0 hs]
    rcases FindOperation_spec conditional_code ((conditional_code.length : Int) - 1) opc
      (by omega) with ⟨hres, -⟩ | ⟨found, p, s, hres, -⟩
    · rw [hres]
    · obtain ⟨hin, ⟨ops, rfl⟩, -, -⟩ := FindOperation_found_occurs _ _ _ found p hres
      have h1 : ((conditional_code.length : Int) - 1 + 1).toNat = conditional_code.length := by
        simp
      rw [h1, List.take_length] at hin
      exact absurd (Or.inr ⟨_, _, ops, rfl, hin⟩) hno
  | Gpr index => exact FindOperation_other code cursor opc _ h0 hs (by simp) (by simp)
  | Immediate value => exact FindOperation_other code cursor opc _ h0 hs (by simp) (by simp)
  | Cbuf index offset => exact FindOperation_other code cursor opc _ h0 hs (by simp) (by simp)
  | Inert kind => exact FindOperation_other code cursor opc _ h0 hs (by simp) (by simp)

/-- C12: when `FindOperation(block, c, opcode)` with `c < length` returns a node `n` at
position `p`, then `n` is an `Operation` with the requested opcode, `0 ≤ p ≤ c`, the
statement at `p` holds the opcode (it is a matching `Operation`, or a `Conditional`
whose nested block contains one at some depth) and no statement at an index in
`(p, c]` does; when the statement at `p` is itself an `Operation`, `n` is that
statement. -/
theorem FindOperation_first_match_backward (block : NodeBlock) (opc : OperationCode)
    (c : Int) (hc : c < block.length) (n : Node) (p : Int)
    (h : FindOperation block c opc = .ok (some n, p)) :
    (∃ operands, n = .Operation opc operands) ∧ 0 ≤ p ∧ p ≤ c ∧
    (∃ s, block[p.toNat]? = some s ∧ ContainsOperation opc s ∧
      ∀ c' operands, s = .Operation c' operands → n = s) ∧
    ∀ (j : Nat) (s' : Node), p < (j : Int) → (j : Int) ≤ c → block[j]? = some s' →
      ¬ ContainsOperation opc s' := by
  obtain ⟨-, hshape, hp0, hpc⟩ := FindOperation_found_occurs block c opc n p h
  rcases FindOperation_spec block c opc hc with
    ⟨hres, -⟩ | ⟨found, p', s, hres, hp', hs, hcont, hself, hgreat⟩
  · rw [hres] at h
    cases h
  · rw [hres] at h
    simp only [Except.ok.injEq, Prod.mk.injEq, Option.some.injEq] at h
    obtain ⟨rfl, rfl⟩ := h
    refine ⟨hshape, hp0, hpc, ⟨s, by simpa using hs, hcont, hself⟩, fun j s' h1 h2 hs' => ?_⟩
    exact hgreat j s' (by omega) h2 hs'

/-- The search of `nestedBlock` from its last index as an instance of C12: the node
found is the assignment of `r1` inside the conditional, reported at index 1, the index
of the conditional, which is at most the cursor 2. -/
theorem FindOperation_first_match_backward_witness :
    ((2 : Int) < nestedBlock.length) ∧
    FindOperation nestedBlock 2 .Assign =
      .ok (some (.Operation .Assign [.Gpr 1, .Immediate 8]), 1) ∧
    (0 : Int) ≤ 1 ∧ (1 : Int) ≤ 2 :=
  have hlen : (2 : Int) < nestedBlock.length := by simp [nestedBlock]
  have hfind : FindOperation nestedBlock 2 .Assign =
      .ok (some (.Operation .Assign [.Gpr 1, .Immediate 8]), 1) := by
    simp [nestedBlock, FindOperation_nonneg, FindOperation_neg]
  have h := FindOperation_first_match_backward nestedBlock .Assign 2 hlen _ _ hfind
  ⟨hlen, hfind, h.2.1, h.2.2.1⟩

/-- C13: when the backward scan from `cursor` reaches a `Conditional` at index `p` (every
statement at an index in `(p, cursor]` is passed without a match) and the search of its
nested block from the last index of that block finds a node `n`, `FindOperation` returns
`n` paired with `p`, the index of the conditional in the parent block, whatever the
position `q` inside the nested block. -/
theorem FindOperation_outer_cursor (block : NodeBlock) (opc : OperationCode) (cursor : Int)
    (p : Nat) (condition : Node) (conditional_code : NodeBlock) (n : Node) (q : Int)
    (hp : (p : Int) ≤ cursor)
    (hcond : block[p]? = some (.Conditional condition conditional_code))
    (hreach : ∀ j : Nat, p < j → (j : Int) ≤ cursor →
      ∃ s, block[j]? = some s ∧ ¬ ContainsOperation opc s)
    (hinner : FindOperation conditional_code ((conditional_code.length : Int) - 1) opc
      = .ok (some n, q)) :
    FindOperation block cursor opc = .ok (some n, (p : Int)) := by
  have hat : FindOperation block (p : Int) opc = .ok (some n, (p : Int)) := by
    rw [FindOperation_conditional block (p : Int) opc condition conditional_code
      (Int.natCast_nonneg p) (by simpa using hcond), hinner]
  obtain ⟨d, hd⟩ : ∃ d : Nat, cursor = (p : Int) + d := ⟨(cursor - p).toNat, by omega⟩
  subst hd
  induction d with
  | zero => simpa using hat
  | succ d ih =>
    obtain ⟨s, hs, hno⟩ := hreach (p + (d + 1)) (by omega) (by push_cast; omega)
    have h0 : (0 : Int) ≤ (p : Int) + ((d + 1 : Nat) : Int) := by omega
    have hidx : ((p : Int) + ((d + 1 : Nat) : Int)).toNat = p + (d + 1) := by omega
    rw [FindOperation_skip block _ opc s h0 (by rw [hidx]; exact hs) hno]
    have hpred : (p : Int) + ((d + 1 : Nat) : Int) - 1 = (p : Int) + (d : Int) := by
      push_cast; ring
    rw [hpred]
    exact ih (by omega) (fun j h1 h2 => hreach j h1 (by push_cast; omega))

/-- The search of `nestedBlock` from its last index as an instance of C13: the scan
passes the inert statement at index 2, reaches the conditional at index 1, whose body
search finds the assignment of `r1` at inner position 0; the position returned is 1. -/
theorem FindOperation_outer_cursor_witness :
    FindOperation [.Operation .Assign [.Gpr 1, .Immediate 8]] (((1 : Nat) : Int) - 1) .Assign =
      .ok (some (.Operation .Assign [.Gpr 1, .Immediate 8]), 0) ∧
    FindOperation nestedBlock 2 .Assign =
      .ok (some (.Operation .Assign [.Gpr 1, .Immediate 8]), ((1 : Nat) : Int)) :=
  have hinner : FindOperation [.Operation .Assign [.Gpr 1, .Immediate 8]]
      (((1 : Nat) : Int) - 1) .Assign =
      .ok (some (.Operation .Assign [.Gpr 1, .Immediate 8]), 0) := by
    simp [FindOperation_nonneg]
  ⟨hinner,
    FindOperation_outer_cursor nestedBlock .Assign 2 1 (.Inert 0)
      [.Operation .Assign [.Gpr 1, .Immediate 8]] _ 0 (by decide) rfl
      (fun j h1 h2 => by
        have hj : j = 2 := by omega
        subst hj
        refine ⟨.Inert 1, rfl, ?_⟩
        rintro (⟨ops, h⟩ | ⟨g, cc, ops, h, -⟩) <;> cases h)
      hinner⟩

/-- C14: for a cursor `c < length`, `FindOperation(block, c, opcode)` reports "not
found" if and only if no statement at an index in `[0, c]` holds the opcode (is a
matching `Operation`, or a `Conditional` whose nested block contains one at any
depth); it is "not found" for every `c < 0` and on a conditional with an empty nested
block. -/
theorem FindOperation_not_found_iff (block : NodeBlock) (opc : OperationCode) (c : Int)
    (hc : c < block.length) :
    (FindOperation block c opc = .ok (none, 0) ↔
      ∀ (j : Nat) (s : Node), (j : Int) ≤ c → block[j]? = some s →
        ¬ ContainsOperation opc s) ∧
    (c < 0 → FindOperation block c opc = .ok (none, 0)) ∧
    (∀ condition, FindOperation [.Conditional condition []] 0 opc = .ok (none, 0)) := by
  refine ⟨⟨fun h => ?_, fun h => ?_⟩, fun hneg => FindOperation_neg block c opc hneg, ?_⟩
  · rcases FindOperation_spec block c opc hc with ⟨-, hnone⟩ | ⟨found, p, s, hres, -⟩
    · exact hnone
    · rw [hres] at h
      cases h
  · rcases FindOperation_spec block c opc hc with
      ⟨hres, -⟩ | ⟨found, p, s, -, hp, hs, hcont, -, -⟩
    · exact hres
    · exact absurd hcont (h p s hp hs)
  · intro condition
    simp [FindOperation_nonneg, FindOperation_neg]

/-- The search of `[Inert, Inert]` from index 1 as an instance of C14: the cursor is in
range, no statement holds an `Assign`, and the search reports "not found". -/
theorem FindOperation_not_found_iff_witness :
    ((1 : Int) < ([.Inert 0, .Inert 1] : NodeBlock).length) ∧
    FindOperation [.Inert 0, .Inert 1] 1 .Assign = .ok (none, 0) :=
  have hlen : (1 : Int) < ([.Inert 0, .Inert 1] : NodeBlock).length := by simp
  ⟨hlen, (FindOperation_not_found_iff [.Inert 0, .Inert 1] .Assign 1 hlen).1.2
    (fun j s hj hs => by
      have hj' : j = 0 ∨ j = 1 := by omega
      rcases hj' with rfl | rfl
      · simp only [List.getElem?_cons_zero, Option.some.injEq] at hs
        subst hs
        rintro (⟨ops, h⟩ | ⟨g, cc, ops, h, -⟩) <;> cases h
      · simp only [List.getElem?_cons_succ, List.getElem?_cons_zero, Option.some.injEq] at hs
        subst hs
        rintro (⟨ops, h⟩ | ⟨g, cc, ops, h, -⟩) <;> cases h)⟩

/-! Section: C15 -/

/-- One round of the loop of `TrackRegister` in which the assignment found does not
target the tracked register goes on from `cursor - 1`. -/
theorem TrackRegister_fallthrough (tracked : Nat) (code : NodeBlock) (cursor : Int)
    (c : OperationCode) (operands : List Node) (p : Int) (target : Node)
    (h0 : 0 ≤ cursor)
    (hfind : FindOperation code cursor .Assign = .ok (some (.Operation c operands), p))
    (htarget : operands[0]? = some target) (hne : target ≠ .Gpr tracked) :
    TrackRegister tracked code cursor = TrackRegister tracked code (cursor - 1) := by
  rw [TrackRegister_nonneg tracked code cursor h0, hfind]
  simp only [htarget]
  cases target with
  | Gpr index =>
    have hidx : index ≠ tracked := fun e => hne (by rw [e])
    simp only [hidx, if_false]
  | _ => rfl

/-- After an assignment found at `p` that does not target the tracked register, the loop
of `TrackRegister` finds it again from every cursor down to `p` and then goes on from
`p - 1`. -/
theorem TrackRegister_restart (tracked : Nat) (code : NodeBlock) (cursor : Int)
    (c : OperationCode) (operands : List Node) (p : Int) (target : Node)
    (hfind : FindOperation code cursor .Assign = .ok (some (.Operation c operands), p))
    (htarget : operands[0]? = some target) (hne : target ≠ .Gpr tracked) :
    TrackRegister tracked code cursor = TrackRegister tracked code (p - 1) := by
  obtain ⟨-, -, hp0, hpc⟩ := FindOperation_found_occurs code cursor .Assign _ p hfind
  have hdown : ∀ d : Nat, p + (d : Int) ≤ cursor →
      TrackRegister tracked code (p + (d : Int)) = TrackRegister tracked code (p - 1) := by
    intro d
    induction d with
    | zero =>
      intro _
      have hf := FindOperation_stable code cursor .Assign _ p hfind p (le_refl p) hpc
      simpa using TrackRegister_fallthrough tracked code p c operands p target hp0 hf
        htarget hne
    | succ d ih =>
      intro hd
      have hf := FindOperation_stable code cursor .Assign _ p hfind (p + ((d + 1 : Nat) : Int))
        (by omega) hd
      rw [TrackRegister_fallthrough tracked code _ c operands p target (by omega) hf
        htarget hne]
      have hpred : p + ((d + 1 : Nat) : Int) - 1 = p + (d : Int) := by push_cast; ring
      rw [hpred]
      exact ih (by omega)
  obtain ⟨d, hd⟩ : ∃ d : Nat, cursor = p + (d : Int) := ⟨(cursor - p).toNat, by omega⟩
  rw [hd]
  exact hdown d (by omega)

theorem TrackRegisterSpecRounds_eq (tracked : Nat) (code : NodeBlock) (fuel : Nat) :
    ∀ cursor : Int, (cursor + 1).toNat < fuel →
      TrackRegisterSpecRounds tracked code fuel cursor =
        some (TrackRegister tracked code cursor) := by
  induction fuel with
  | zero => intro cursor h; omega
  | succ fuel ih =>
    intro cursor hfuel
    rw [TrackRegisterSpecRounds]
    by_cases h0 : 0 ≤ cursor
    · rw [TrackRegister_nonneg tracked code cursor h0]
      match hfind : FindOperation code cursor .Assign with
      | .error e => rfl
      | .ok (none, q) => rfl
      | .ok (some (.Operation c operands), p) =>
        obtain ⟨-, -, hp0, hpc⟩ := FindOperation_found_occurs code cursor .Assign _ p hfind
        have hrec : TrackRegisterSpecRounds tracked code fuel (p - 1) =
            some (TrackRegister tracked code (p - 1)) := ih (p - 1) (by omega)
        simp only []
        match htarget : (operands[0]? : Option Node) with
        | none => rfl
        | some (.Gpr index) =>
          simp only []
          by_cases hidx : index = tracked
          · simp only [hidx, if_true]
            cases operands[1]? <;> rfl
          · simp only [hidx, if_false]
            rw [hrec, ← TrackRegister_restart tracked code cursor c operands p (.Gpr index)
              hfind htarget (fun e => hidx (by cases e; rfl)), TrackRegister_fallthrough tracked
              code cursor c operands p (.Gpr index) h0 hfind htarget
              (fun e => hidx (by cases e; rfl))]
        | some (.Operation c' o') =>
          simp only []
          rw [hrec, ← TrackRegister_restart tracked code cursor c operands p _ hfind htarget
            (by simp), TrackRegister_fallthrough tracked code cursor c operands p _ h0 hfind
            htarget (by simp)]
        | some (.Conditional g cc) =>
          simp only []
          rw [hrec, ← TrackRegister_restart tracked code cursor c operands p _ hfind htarget
            (by simp), TrackRegister_fallthrough tracked code cursor c operands p _ h0 hfind
            htarget (by simp)]
        | some (.Immediate v) =>
          simp only []
          rw [hrec, ← TrackRegister_restart tracked code cursor c operands p _ hfind htarget
            (by simp), TrackRegister_fallthrough tracked code cursor c operands p _ h0 hfind
            htarget (by simp)]
        | some (.Cbuf i off) =>
          simp only []
          rw [hrec, ← TrackRegister_restart tracked code cursor c operands p _ hfind htarget
            (by simp), TrackRegister_fallthrough tracked code cursor c operands p _ h0 hfind
            htarget (by simp)]
        | some (.Inert k) =>
          simp only []
          rw [hrec, ← TrackRegister_restart tracked code cursor c operands p _ hfind htarget
            (by simp), TrackRegister_fallthrough tracked code cursor c operands p _ h0 hfind
            htarget (by simp)]
      | .ok (some (.Conditional g cc), p) => rfl
      | .ok (some (.Gpr i), p) => rfl
      | .ok (some (.Immediate v), p) => rfl
      | .ok (some (.Cbuf i off), p) => rfl
      | .ok (some (.Inert k), p) => rfl
    · rw [FindOperation_neg code cursor _ (by omega),
        TrackRegister_neg tracked code cursor (by omega)]

/-- C15: `TrackRegister`, whose loop re-runs the search from `cursor - 1` after an
assignment that does not match, returns the same result (the same expression and
position, the same "not found", the same exception) as the tracker of the
specification, which re-starts from the position found minus one; this for every block,
register and cursor.  On `nestedBlock` both pass the conditional at index 1 and return
the assignment of `r0` at index 0. -/
theorem TrackRegister_refines_spec (tracked : Nat) (code : NodeBlock) (cursor : Int) :
    TrackRegisterSpec tracked code cursor = some (TrackRegister tracked code cursor) ∧
    TrackRegister 0 nestedBlock 2 = .ok (some (.Immediate 1), 0) ∧
    TrackRegisterSpec 0 nestedBlock 2 = some (.ok (some (.Immediate 1), 0)) := by
  have hex : TrackRegister 0 nestedBlock 2 = .ok (some (.Immediate 1), 0) := by
    simp [nestedBlock, TrackRegister_nonneg, FindOperation_nonneg, FindOperation_neg]
  refine ⟨TrackRegisterSpecRounds_eq tracked code _ cursor (by omega), hex, ?_⟩
  rw [← hex]
  exact TrackRegisterSpecRounds_eq 0 nestedBlock _ 2 (by decide)

/-! Section: C16 -/

/-- C16: the search primitives are total functions, defined by well-founded recursion.
`FindOperation` satisfies the recursion of the source, in which the nested call is on
the block of a conditional of the current block, of strictly smaller size, and the
loop goes on from `cursor - 1`, strictly closer to the end of the loop at `-1`;
`TrackRegister` satisfies its loop and `TrackImmediate` is one call of it; from a cursor
below the length of the block `FindOperation` returns (it does not throw). -/
theorem search_primitives_total (code : NodeBlock) :
    (∀ (cursor : Int) (opc : OperationCode),
      FindOperation code cursor opc =
        if 0 ≤ cursor then
          match code[cursor.toNat]? with
          | none => .error .outOfRange
          | some (.Operation c operands) =>
            if c = opc then .ok (some (.Operation c operands), cursor)
            else FindOperation code (cursor - 1) opc
          | some (.Conditional _ conditional_code) =>
            match FindOperation conditional_code ((conditional_code.length : Int) - 1) opc with
            | .error e => .error e
            | .ok (some found, _) => .ok (some found, cursor)
            | .ok (none, _) => FindOperation code (cursor - 1) opc
          | some _ => FindOperation code (cursor - 1) opc
        else .ok (none, 0)) ∧
    (∀ (i : Nat) (condition : Node) (conditional_code : NodeBlock),
      code[i]? = some (.Conditional condition conditional_code) →
        sizeOf conditional_code < sizeOf code) ∧
    (∀ cursor : Int, 0 ≤ cursor → (cursor - 1 + 1).toNat < (cursor + 1).toNat) ∧
    (∀ (tracked : Nat) (cursor : Int),
      TrackRegister tracked code cursor =
        if 0 ≤ cursor then
          match FindOperation code cursor .Assign with
          | .error e => .error e
          | .ok (none, _) => .ok (none, 0)
          | .ok (some (.Operation _ operands), new_cursor) =>
            match (operands[0]? : Option Node) with
            | none => .error .outOfRange
            | some (.Gpr index) =>
              if index = tracked then
                match (operands[1]? : Option Node) with
                | none => .error .outOfRange
                | some source => .ok (some source, new_cursor)
              else TrackRegister tracked code (cursor - 1)
            | some _ => TrackRegister tracked code (cursor - 1)
          | .ok (some _, _) => .error .assertFailed
        else .ok (none, 0)) ∧
    (∀ (tracked : Nat) (cursor : Int),
      TrackImmediate (.Gpr tracked) code cursor =
        match TrackRegister tracked code (cursor - 1) with
        | .error e => .error e
        | .ok (none, _) => .ok none
        | .ok (some (.Immediate value), _) => .ok (some value)
        | .ok (some _, _) => .ok none) ∧
    (∀ (cursor : Int) (opc : OperationCode), cursor < code.length →
      ∃ found p, FindOperation code cursor opc = .ok (found, p)) := by
  refine ⟨fun cursor opc => ?_, fun i condition conditional_code h => ?_, fun cursor h => ?_,
    fun tracked cursor => ?_, fun tracked cursor => rfl, fun cursor opc hc => ?_⟩
  · by_cases h0 : 0 ≤ cursor
    · rw [if_pos h0]
      exact FindOperation_nonneg code cursor opc h0
    · rw [if_neg h0]
      exact FindOperation_neg code cursor opc (by omega)
  · have hlt := List.sizeOf_lt_of_mem (List.getElem?_mem h)
    simp only [Node.Conditional.sizeOf_spec] at hlt
    omega
  · omega
  · by_cases h0 : 0 ≤ cursor
    · rw [if_pos h0]
      exact TrackRegister_nonneg tracked code cursor h0
    · rw [if_neg h0]
      exact TrackRegister_neg tracked code cursor (by omega)
  · rcases FindOperation_spec code cursor opc hc with ⟨hres, -⟩ | ⟨found, p, s, hres, -⟩
    · exact ⟨none, 0, hres⟩
    · exact ⟨some found, p, hres⟩

/-- The search primitives on `nestedBlock` as an instance of C16: the body of its
conditional is strictly smaller than the block, and the search from the last index
returns. -/
theorem search_primitives_total_witness :
    nestedBlock[1]? = some (.Conditional (.Inert 0) [.Operation .Assign [.Gpr 1, .Immediate 8]]) ∧
    sizeOf ([.Operation .Assign [.Gpr 1, .Immediate 8]] : NodeBlock) < sizeOf nestedBlock ∧
    ((2 : Int) < nestedBlock.length) ∧
    ∃ found p, FindOperation nestedBlock 2 .Assign = .ok (found, p) :=
  have h := search_primitives_total nestedBlock
  ⟨rfl, h.2.1 1 _ _ rfl, by simp [nestedBlock], h.2.2.2.2.2 2 .Assign (by simp [nestedBlock])⟩

/-! Section: C17 -/

/-- What `TrackRegister` returns is operand 1 of an `Assign` that lies in the block, at
a position between 0 and the cursor. -/
theorem TrackRegister_found (tracked : Nat) (code : NodeBlock) (cursor : Int) :
    ∀ (source : Node) (p : Int), TrackRegister tracked code cursor = .ok (some source, p) →
      0 ≤ p ∧ p ≤ cursor ∧
      ∃ operands, OccursIn (.Operation .Assign operands) code ∧ operands[1]? = some source := by
  induction cursor using TrackRegister.induct tracked code with
  | case1 x h0 e he =>
    intro source p h
    rw [TrackRegister_nonneg tracked code x h0, he] at h
    cases h
  | case2 x h0 q hq =>
    intro source p h
    rw [TrackRegister_nonneg tracked code x h0, hq] at h
    cases h
  | case3 x h0 c operands q hfind hnone =>
    intro source p h
    rw [TrackRegister_nonneg tracked code x h0, hfind] at h
    simp only [hnone] at h
    cases h
  | case4 x h0 c operands q hfind hnone htarget =>
    intro source p h
    rw [TrackRegister_nonneg tracked code x h0, hfind] at h
    simp only [htarget, if_true, hnone] at h
    cases h
  | case5 x h0 c operands q hfind src hsrc htarget =>
    intro source p h
    rw [TrackRegister_nonneg tracked code x h0, hfind] at h
    simp only [htarget, if_true, hsrc, Except.ok.injEq, Prod.mk.injEq, Option.some.injEq] at h
    obtain ⟨rfl, rfl⟩ := h
    obtain ⟨hin, ⟨ops, hshape⟩, hp0, hpc⟩ := FindOperation_found_occurs code x .Assign _ q hfind
    simp only [Node.Operation.injEq] at hshape
    obtain ⟨rfl, rfl⟩ := hshape
    exact ⟨hp0, hpc, operands,
      OccursIn_mono _ _ _ (fun y hy => List.mem_of_mem_take hy) hin, hsrc⟩
  | case6 x h0 c operands q hfind index htarget hne ih =>
    intro source p h
    rw [TrackRegister_fallthrough tracked code x c operands q (.Gpr index) h0 hfind htarget
      (fun e => hne (by cases e; rfl))] at h
    obtain ⟨hp0, hpc, hsrc⟩ := ih source p h
    exact ⟨hp0, by omega, hsrc⟩
  | case7 x h0 c operands q hfind target hnot htarget ih =>
    intro source p h
    rw [TrackRegister_fallthrough tracked code x c operands q target h0 hfind htarget
      (fun e => hnot tracked e)] at h
    obtain ⟨hp0, hpc, hsrc⟩ := ih source p h
    exact ⟨hp0, by omega, hsrc⟩
  | case8 x h0 found q hnot hfind =>
    intro source p h
    obtain ⟨-, ⟨ops, hshape⟩, -, -⟩ := FindOperation_found_occurs code x .Assign _ q hfind
    exact absurd hshape (fun e => hnot _ _ e)
  | case9 x hneg =>
    intro source p h
    rw [TrackRegister_neg tracked code x (by omega)] at h
    cases h

/-- C17: when the loop of `TrackRegister` is at a `Conditional` at index `p` whose nested
block has as most recent `Assign`, at any nesting depth, one that targets a register
other than `r`, the result is that of the tracker run from `p - 1`: so it is from any
cursor from which the loop comes down to `p`, and a node returned is found strictly
before `p`, never inside the conditional, also when its body assigns `r` earlier.  On
`[Conditional(c, [Assign(r0, Immediate(7)), Assign(r1, Immediate(8))])]` tracking `r0`
from 0 is "not found". -/
theorem TrackRegister_conditional_last_assign_only (r r' : Nat) (block : NodeBlock) (p : Nat)
    (condition : Node) (conditional_code : NodeBlock) (operands : List Node)
    (hcond : block[p]? = some (.Conditional condition conditional_code))
    (hlast : lastOperationIn .Assign conditional_code = some (.Operation .Assign operands))
    (htarget : operands[0]? = some (.Gpr r')) (hne : r' ≠ r) :
    TrackRegister r block (p : Int) = TrackRegister r block ((p : Int) - 1) ∧
    (∀ cursor : Int, (p : Int) ≤ cursor →
      (∀ j : Int, (p : Int) < j → j ≤ cursor →
        TrackRegister r block j = TrackRegister r block (j - 1)) →
      TrackRegister r block cursor = TrackRegister r block ((p : Int) - 1)) ∧
    (∀ (source : Node) (q : Int), TrackRegister r block (p : Int) = .ok (some source, q) →
      0 ≤ q ∧ q < (p : Int)) ∧
    TrackRegister 0 [.Conditional (.Inert 0) shadowedBody] 0 = .ok (none, 0) := by
  have hat : TrackRegister r block (p : Int) = TrackRegister r block ((p : Int) - 1) := by
    obtain ⟨q, hq⟩ := FindOperation_eq_lastOperationIn conditional_code
      ((conditional_code.length : Int) - 1) .Assign (by omega)
    have hn : ((conditional_code.length : Int) - 1 + 1).toNat = conditional_code.length := by
      simp
    rw [hn, List.take_length, hlast] at hq
    have hfind : FindOperation block (p : Int) .Assign =
        .ok (some (.Operation .Assign operands), (p : Int)) := by
      rw [FindOperation_conditional block (p : Int) _ condition conditional_code
        (Int.natCast_nonneg p) (by simpa using hcond), hq]
    exact TrackRegister_fallthrough r block (p : Int) .Assign operands (p : Int) (.Gpr r')
      (Int.natCast_nonneg p) hfind htarget (fun e => hne (by cases e; rfl))
  refine ⟨hat, fun cursor hp hdown => ?_, fun source q h => ?_, ?_⟩
  · obtain ⟨d, hd⟩ : ∃ d : Nat, cursor = (p : Int) + d := ⟨(cursor - p).toNat, by omega⟩
    subst hd
    induction d with
    | zero => simpa using hat
    | succ d ih =>
      rw [hdown _ (by push_cast; omega) (le_refl _)]
      have hpred : (p : Int) + ((d + 1 : Nat) : Int) - 1 = (p : Int) + (d : Int) := by
        push_cast; ring
      rw [hpred]
      exact ih (by omega) (fun j h1 h2 => hdown j h1 (by push_cast; omega))
  · rw [hat] at h
    obtain ⟨hq0, hqp, -⟩ := TrackRegister_found r block _ source q h
    exact ⟨hq0, by omega⟩
  · simp [shadowedBody, TrackRegister_nonneg, TrackRegister_neg, FindOperation_nonneg,
      FindOperation_neg]

/-- The shadowed body as an instance of C17: the most recent `Assign` of the body
targets `r1`, so tracking `r0` at the conditional is tracking `r0` from `-1`. -/
theorem TrackRegister_conditional_last_assign_only_witness :
    lastOperationIn .Assign shadowedBody = some (.Operation .Assign [.Gpr 1, .Immediate 8]) ∧
    (1 ≠ 0) ∧
    TrackRegister 0 [.Conditional (.Inert 0) shadowedBody] ((0 : Nat) : Int) =
      TrackRegister 0 [.Conditional (.Inert 0) shadowedBody] (((0 : Nat) : Int) - 1) :=
  have hlast : lastOperationIn .Assign shadowedBody =
      some (.Operation .Assign [.Gpr 1, .Immediate 8]) := by
    simp [shadowedBody, lastOperationIn, Node.lastOperation]
  ⟨hlast, by decide,
    (TrackRegister_conditional_last_assign_only 0 1 [.Conditional (.Inert 0) shadowedBody] 0
      (.Inert 0) shadowedBody [.Gpr 1, .Immediate 8] rfl hlast rfl (by decide)).1⟩

/-! Section: C18 -/

/-- With two operands on every `Assign` of the block, at any nesting depth, the tracker
run from a cursor below the length of the block returns: no `at` is out of range, the
node found is an operation, its operands 0 and 1 exist. -/
theorem TrackRegister_returns (tracked : Nat) (code : NodeBlock)
    (hwf : ∀ operands, OccursIn (.Operation .Assign operands) code → 2 ≤ operands.length)
    (cursor : Int) (hc : cursor < code.length) :
    ∃ result, TrackRegister tracked code cursor = .ok result := by
  induction cursor using TrackRegister.induct tracked code with
  | case1 x h0 e he =>
    rcases FindOperation_spec code x .Assign hc with ⟨hres, -⟩ | ⟨found, p, s, hres, -⟩ <;>
      (rw [he] at hres; cases hres)
  | case2 x h0 q hq =>
    exact ⟨(none, 0), by rw [TrackRegister_nonneg tracked code x h0, hq]⟩
  | case3 x h0 c operands q hfind hnone =>
    obtain ⟨hin, ⟨ops, hshape⟩, -, -⟩ := FindOperation_found_occurs code x .Assign _ q hfind
    simp only [Node.Operation.injEq] at hshape
    obtain ⟨rfl, rfl⟩ := hshape
    have hlen := hwf operands (OccursIn_mono _ _ _ (fun y hy => List.mem_of_mem_take hy) hin)
    rw [List.getElem?_eq_none_iff] at hnone
    omega
  | case4 x h0 c operands q hfind hnone htarget =>
    obtain ⟨hin, ⟨ops, hshape⟩, -, -⟩ := FindOperation_found_occurs code x .Assign _ q hfind
    simp only [Node.Operation.injEq] at hshape
    obtain ⟨rfl, rfl⟩ := hshape
    have hlen := hwf operands (OccursIn_mono _ _ _ (fun y hy => List.mem_of_mem_take hy) hin)
    rw [List.getElem?_eq_none_iff] at hnone
    omega
  | case5 x h0 c operands q hfind src hsrc htarget =>
    refine ⟨(some src, q), ?_⟩
    rw [TrackRegister_nonneg tracked code x h0, hfind]
    simp only [htarget, if_true, hsrc]
  | case6 x h0 c operands q hfind index htarget hne ih =>
    rw [TrackRegister_fallthrough tracked code x c operands q (.Gpr index) h0 hfind htarget
      (fun e => hne (by cases e; rfl))]
    exact ih (by omega)
  | case7 x h0 c operands q hfind target hnot htarget ih =>
    rw [TrackRegister_fallthrough tracked code x c operands q target h0 hfind htarget
      (fun e => hnot tracked e)]
    exact ih (by omega)
  | case8 x h0 found q hnot hfind =>
    obtain ⟨-, ⟨ops, hshape⟩, -, -⟩ := FindOperation_found_occurs code x .Assign _ q hfind
    exact absurd hshape (fun e => hnot _ _ e)
  | case9 x hneg =>
    exact ⟨(none, 0), TrackRegister_neg tracked code x (by omega)⟩

theorem TrackCbufOperands_error (f : Node → Option (Except Fault (Option Node)))
    (operands : List Node) (e : Fault) (h : TrackCbufOperands f operands = some (.error e)) :
    ∃ operand, operand ∈ operands ∧ f operand = some (.error e) := by
  induction operands with
  | nil => simp [TrackCbufOperands] at h
  | cons operand rest ih =>
    rw [TrackCbufOperands] at h
    match hf : f operand, h with
    | none, h => simp only [hf] at h; cases h
    | some (.error e'), h =>
      simp only [hf, Option.some.injEq, Except.error.injEq] at h
      subst h
      exact ⟨operand, List.mem_cons_self _ _, hf⟩
    | some (.ok (some n)), h => simp only [hf] at h; cases h
    | some (.ok none), h =>
      simp only [hf] at h
      obtain ⟨o, ho, hfo⟩ := ih h
      exact ⟨o, List.mem_cons_of_mem _ ho, hfo⟩

/-- With two operands on every `Assign` of the block, no call of `TrackCbuf` from a
cursor up to the length of the block ends with an exception. -/
theorem TrackCbuf_no_exception (zero_index : Nat) (code : NodeBlock)
    (hwf : ∀ operands, OccursIn (.Operation .Assign operands) code → 2 ≤ operands.length)
    (fuel : Nat) :
    ∀ (tracked : Node) (cursor : Int), cursor ≤ code.length →
      ∀ e, TrackCbuf zero_index fuel tracked code cursor ≠ some (.error e) := by
  induction fuel with
  | zero =>
    intro tracked cursor hc e h
    simp [TrackCbuf] at h
  | succ fuel ih =>
    intro tracked cursor hc e h
    cases tracked with
    | Cbuf index offset => cases offset <;> simp [TrackCbuf] at h
    | Gpr index =>
      rw [TrackCbuf] at h
      by_cases hz : index = zero_index
      · simp [hz] at h
      · simp only [hz, if_false] at h
        obtain ⟨result, hres⟩ := TrackRegister_returns index code hwf (cursor - 1) (by omega)
        match result, hres with
        | (none, q), hres => simp [hres] at h
        | (some source, p), hres =>
          simp only [hres] at h
          obtain ⟨-, hp, -⟩ := TrackRegister_found index code _ source p hres
          exact ih source p (by omega) e h
    | Operation c operands =>
      rw [TrackCbuf] at h
      obtain ⟨operand, -, hop⟩ := TrackCbufOperands_error _ operands e h
      exact ih operand cursor hc e hop
    | Conditional condition conditional_code =>
      rw [TrackCbuf_conditional_none] at h
      cases h
    | Immediate value => simp [TrackCbuf] at h
    | Inert kind => simp [TrackCbuf] at h

/-- C18: in a block whose `Assign` operations, at any nesting depth, have at least two
operands, for every cursor `c < length`: `FindOperation` returns, so every
`code.at(cursor)` it makes is in range, nested blocks and the empty nested block
searched from `-1` included; a node it finds for `Assign` is an operation with operands
0 and 1; `TrackRegister` returns, so its `ASSERT` holds and the operands it reads
exist.  Consequently `TrackImmediate` returns and `TrackCbuf` on a register never ends
with an exception, for every cursor `0 ≤ c ≤ length`. -/
theorem tracking_fault_free (zero_index r : Nat) (block : NodeBlock)
    (hwf : ∀ operands, OccursIn (.Operation .Assign operands) block → 2 ≤ operands.length) :
    (∀ (c : Int) (opc : OperationCode), c < block.length →
      ∃ found p, FindOperation block c opc = .ok (found, p)) ∧
    (∀ (c : Int) (n : Node) (p : Int), FindOperation block c .Assign = .ok (some n, p) →
      ∃ target source rest, n = .Operation .Assign (target :: source :: rest)) ∧
    (∀ c : Int, c < block.length → ∃ result, TrackRegister r block c = .ok result) ∧
    (∀ c : Int, 0 ≤ c → c ≤ block.length →
      ∃ result, TrackImmediate (.Gpr r) block c = .ok result) ∧
    (∀ c : Int, 0 ≤ c → c ≤ block.length →
      ∀ fuel e, TrackCbuf zero_index fuel (.Gpr r) block c ≠ some (.error e)) := by
  refine ⟨fun c opc hc => ?_, fun c n p h => ?_, fun c hc => ?_, fun c h0 hc => ?_,
    fun c h0 hc fuel e => ?_⟩
  · rcases FindOperation_spec block c opc hc with ⟨hres, -⟩ | ⟨found, p, s, hres, -⟩
    · exact ⟨none, 0, hres⟩
    · exact ⟨some found, p, hres⟩
  · obtain ⟨hin, ⟨ops, rfl⟩, -, -⟩ := FindOperation_found_occurs block c .Assign n p h
    have hlen := hwf ops (OccursIn_mono _ _ _ (fun y hy => List.mem_of_mem_take hy) hin)
    match ops, hlen with
    | target :: source :: rest, _ => exact ⟨target, source, rest, rfl⟩
  · exact TrackRegister_returns r block hwf c hc
  · obtain ⟨result, hres⟩ := TrackRegister_returns r block hwf (c - 1) (by omega)
    simp only [TrackImmediate, hres]
    match result with
    | (none, q) => exact ⟨none, rfl⟩
    | (some (.Immediate v), q) => exact ⟨some v, rfl⟩
    | (some (.Operation _ _), q) => exact ⟨none, rfl⟩
    | (some (.Conditional _ _), q) => exact ⟨none, rfl⟩
    | (some (.Gpr _), q) => exact ⟨none, rfl⟩
    | (some (.Cbuf _ _), q) => exact ⟨none, rfl⟩
    | (some (.Inert _), q) => exact ⟨none, rfl⟩
  · exact TrackCbuf_no_exception zero_index block hwf fuel (.Gpr r) c hc e

/-- The block `[Assign(r3, Cbuf(0, 4)), Assign(r4, r3), Inert]` as an instance of C18:
its assignments have two operands and tracking `r4` from the end of the block
returns. -/
theorem tracking_fault_free_witness :
    (∀ operands, OccursIn (.Operation .Assign operands) (chainBlock (.Inert 0)) →
      2 ≤ operands.length) ∧
    (∃ result, TrackRegister 4 (chainBlock (.Inert 0)) 2 = .ok result) ∧
    ∃ result, TrackImmediate (.Gpr 4) (chainBlock (.Inert 0)) 3 = .ok result :=
  have hwf : ∀ operands, OccursIn (.Operation .Assign operands) (chainBlock (.Inert 0)) →
      2 ≤ operands.length := by
    intro operands hin
    cases hin with
    | here hmem =>
      simp only [chainBlock, List.mem_cons, Node.Operation.injEq, true_and,
        List.mem_singleton, List.not_mem_nil, or_false] at hmem
      rcases hmem with rfl | rfl | h
      · simp
      · simp
      · cases h
    | nested hmem _ => simp [chainBlock] at hmem
  have h := tracking_fault_free 255 4 (chainBlock (.Inert 0)) hwf
  ⟨hwf, h.2.2.1 2 (by simp [chainBlock]), h.2.2.2.1 3 (by decide) (by simp [chainBlock])⟩

/-! Section: C19 -/

theorem conditionalFree_of_mem (operands : List Node) (h : conditionalFreeList operands = true)
    (operand : Node) (hmem : operand ∈ operands) : operand.conditionalFree = true := by
  induction operands with
  | nil => cases hmem
  | cons head rest ih =>
    rw [conditionalFreeList, Bool.and_eq_true] at h
    rcases List.mem_cons.mp hmem with rfl | hrest
    · exact h.1
    · exact ih h.2 hrest

/-- When the tracking of every operand ends, the loop over the operands ends. -/
theorem TrackCbufOperands_yields (zero_index : Nat) (code : NodeBlock) (cursor : Int)
    (operands : List Node)
    (h : ∀ o, o ∈ operands → ∃ result, TrackCbufYields zero_index o code cursor result) :
    ∃ fuel result,
      TrackCbufOperands (fun o => TrackCbuf zero_index fuel o code cursor) operands
        = some result := by
  induction operands with
  | nil => exact ⟨0, .ok none, rfl⟩
  | cons head rest ih =>
    obtain ⟨fuel₁, result₁, h₁⟩ := ih (fun o ho => h o (List.mem_cons_of_mem _ ho))
    obtain ⟨result₂, fuel₂, h₂⟩ := h head (List.mem_cons_self _ _)
    have hhead := TrackCbuf_fuel_mono zero_index fuel₂ (max fuel₁ fuel₂) (le_max_right _ _)
      _ _ _ _ h₂
    have hrest := TrackCbufOperands_mono
      (fun o => TrackCbuf zero_index fuel₁ o code cursor)
      (fun o => TrackCbuf zero_index (max fuel₁ fuel₂) o code cursor)
      (fun o r hr => TrackCbuf_fuel_mono zero_index fuel₁ _ (le_max_left _ _) _ _ _ _ hr)
      rest result₁ h₁
    refine ⟨max fuel₁ fuel₂, ?_⟩
    rw [TrackCbufOperands]
    simp only [hhead]
    match result₂ with
    | .error e => exact ⟨_, rfl⟩
    | .ok (some found) => exact ⟨_, rfl⟩
    | .ok none => exact ⟨result₁, hrest⟩

/-- Every call of `TrackCbuf` on a node free of conditionals ends, in a block whose
assigned expressions are free of conditionals: by induction on the cursor, then on the
size of the tracked node. -/
theorem TrackCbuf_yields_of_conditionalFree (zero_index : Nat) (code : NodeBlock)
    (hcode : ∀ operands source, OccursIn (.Operation .Assign operands) code →
      operands[1]? = some source → source.conditionalFree = true)
    (tracked : Node) (cursor : Int) (htracked : tracked.conditionalFree = true) :
    ∃ result, TrackCbufYields zero_index tracked code cursor result := by
  match tracked, htracked with
  | .Cbuf index offset, _ =>
    cases offset with
    | Immediate value =>
      exact ⟨.ok (some (.Cbuf index (.Immediate value))), 1, by simp [TrackCbuf]⟩
    | _ => exact ⟨.ok none, 1, by simp [TrackCbuf]⟩
  | .Gpr index, _ =>
    by_cases hz : index = zero_index
    · exact ⟨.ok none, 1, by rw [TrackCbuf]; simp only [hz, if_true]⟩
    · match hreg : TrackRegister index code (cursor - 1) with
      | .error e => exact ⟨.error e, 1, by rw [TrackCbuf]; simp only [hz, if_false, hreg]⟩
      | .ok (none, q) => exact ⟨.ok none, 1, by rw [TrackCbuf]; simp only [hz, if_false, hreg]⟩
      | .ok (some source, p) =>
        obtain ⟨hp0, hp, operands, hin, hsrc⟩ := TrackRegister_found index code _ source p hreg
        have hfree := hcode operands source hin hsrc
        have _hdec : (p + 1).toNat < (cursor + 1).toNat := by omega
        obtain ⟨result, fuel, hfuel⟩ :=
          TrackCbuf_yields_of_conditionalFree zero_index code hcode source p hfree
        exact ⟨result, fuel + 1, by rw [TrackCbuf]; simp only [hz, if_false, hreg]; exact hfuel⟩
  | .Operation c operands, hfree =>
    have hops : conditionalFreeList operands = true := by
      simpa [Node.conditionalFree] using hfree
    obtain ⟨fuel, result, hfuel⟩ := TrackCbufOperands_yields zero_index code cursor operands
      (fun o ho =>
        have _hdec : sizeOf o < 1 + sizeOf c + sizeOf operands := by
          have := List.sizeOf_lt_of_mem ho
          omega
        TrackCbuf_yields_of_conditionalFree zero_index code hcode o cursor
          (conditionalFree_of_mem operands hops o ho))
    exact ⟨result, fuel + 1, by rw [TrackCbuf]; exact hfuel⟩
  | .Immediate value, _ => exact ⟨.ok none, 1, by simp [TrackCbuf]⟩
  | .Inert kind, _ => exact ⟨.ok none, 1, by simp [TrackCbuf]⟩
termination_by ((cursor + 1).toNat, sizeOf tracked)
decreasing_by
  · simp_wf
    apply Prod.Lex.left
    omega
  · simp_wf
    apply Prod.Lex.right
    omega

/-- C19: in a block, with or without `Conditional` statements, in which no `Conditional`
node occurs inside operand 1 of an `Assign` at any nesting depth, `TrackCbuf` on a
tracked node free of `Conditional` nodes ends for every cursor (so for
`0 ≤ c ≤ length`): a call on an operand keeps the cursor and descends to a strictly
smaller node free of conditionals, and a call after `TrackRegister` from `c - 1`
continues on an expression free of conditionals at a position `p` with
`0 ≤ p ≤ c - 1`. -/
theorem TrackCbuf_terminates_conditional_free (zero_index : Nat) (block : NodeBlock)
    (tracked : Node) (c : Int)
    (hblock : ∀ operands source, OccursIn (.Operation .Assign operands) block →
      operands[1]? = some source → source.conditionalFree = true)
    (htracked : tracked.conditionalFree = true) :
    (∃ result, TrackCbufYields zero_index tracked block c result) ∧
    (∀ opc operands operand, tracked = .Operation opc operands → operand ∈ operands →
      operand.conditionalFree = true ∧ sizeOf operand < sizeOf tracked) ∧
    (∀ r source p, TrackRegister r block (c - 1) = .ok (some source, p) →
      0 ≤ p ∧ p ≤ c - 1 ∧ source.conditionalFree = true) := by
  refine ⟨TrackCbuf_yields_of_conditionalFree zero_index block hblock tracked c htracked,
    fun opc operands operand heq hmem => ?_, fun r source p hreg => ?_⟩
  · subst heq
    have hops : conditionalFreeList operands = true := by
      simpa [Node.conditionalFree] using htracked
    refine ⟨conditionalFree_of_mem operands hops operand hmem, ?_⟩
    have := List.sizeOf_lt_of_mem hmem
    simp only [Node.Operation.sizeOf_spec]
    omega
  · obtain ⟨hp0, hp, operands, hin, hsrc⟩ := TrackRegister_found r block _ source p hreg
    exact ⟨hp0, hp, hblock operands source hin hsrc⟩

/-- The end-to-end scenario as an instance of C19: the expressions assigned in
`[Assign(r3, Cbuf(0, 4)), Assign(r4, r3), Inert]` and the tracked register `r4` are free
of conditionals, and tracking `r4` from index 2 ends. -/
theorem TrackCbuf_terminates_conditional_free_witness :
    (∀ operands source, OccursIn (.Operation .Assign operands) (chainBlock (.Inert 0)) →
      operands[1]? = some source → source.conditionalFree = true) ∧
    (Node.Gpr 4).conditionalFree = true ∧
    ∃ result, TrackCbufYields 255 (.Gpr 4) (chainBlock (.Inert 0)) 2 result :=
  have hblock : ∀ operands source,
      OccursIn (.Operation .Assign operands) (chainBlock (.Inert 0)) →
      operands[1]? = some source → source.conditionalFree = true := by
    intro operands source hin hsrc
    cases hin with
    | here hmem =>
      simp only [chainBlock, List.mem_cons, Node.Operation.injEq, true_and,
        List.mem_singleton, List.not_mem_nil, or_false] at hmem
      rcases hmem with rfl | rfl | h
      · simp only [List.getElem?_cons_succ, List.getElem?_cons_zero, Option.some.injEq] at hsrc
        subst hsrc
        rfl
      · simp only [List.getElem?_cons_succ, List.getElem?_cons_zero, Option.some.injEq] at hsrc
        subst hsrc
        rfl
      · cases h
    | nested hmem _ => simp [chainBlock] at hmem
  ⟨hblock, rfl,
    (TrackCbuf_terminates_conditional_free 255 (chainBlock (.Inert 0)) (.Gpr 4) 2 hblock rfl).1⟩

end VideoCommon.Shader
